import Mathlib

/-!
# Verification of the canopy dashboard calendar view-model engine

This development embeds the calendar view-model logic of
`src/dashboard/src/components/CalendarTab.tsx` in Lean 4 and proves the
specified properties about it.

## Modelling conventions

* JavaScript strings are modelled as `List Char` (`Jstr`).  All strings the
  engine manipulates are ASCII, where UTF-16 code-unit order coincides with
  code-point order.
* JavaScript numbers are modelled as `Int` where the program only ever
  produces integers; an invalid date / `NaN` is modelled as `Option.none`
  and propagated explicitly.  Fractional percentage results are modelled
  exactly as `ℚ`.
* A JavaScript `Date` holding a local midnight is modelled as the number of
  days since 1970-01-01 (an `Int`); a `Date` holding an arbitrary local time
  is modelled by its millisecond value.  The host timezone is modelled as a
  fixed zero offset (no DST), matching the spec's stance that date-time
  strings are used "as provided" in host local time.
* `new Date(y, monthIndex, day)` is modelled with full ECMAScript component
  normalization, including the mapping of integer years 0–99 to 1900–1999.
-/

namespace Canopy

/-- JavaScript strings, modelled as lists of characters. -/
abbrev Jstr := List Char

/-! ## Decimal digits, number formatting and parsing -/

/-- Is `c` one of the ten ASCII decimal digits? -/
def isDigit (c : Char) : Bool := '0' ≤ c && c ≤ '9'

/-- The ASCII digit for `n < 10`. -/
def digitChar (n : Nat) : Char := Char.ofNat (48 + n)

/-- The numeric value of an ASCII digit. -/
def digitVal (c : Char) : Nat := c.toNat - 48

/-- Fuel-driven digit expansion (structural recursion, so that concrete
keys evaluate inside the kernel). -/
def natReprGo : Nat → Nat → Jstr
  | 0, _ => []
  | f + 1, n =>
      if n < 10 then [digitChar n]
      else natReprGo f (n / 10) ++ [digitChar (n % 10)]

/-- Decimal representation of a natural number, as JavaScript's
`Number.prototype.toString` produces it (no sign, no leading zeros).
The fuel `n + 1` always suffices, since a number's digit count is at
most itself plus one. -/
def natRepr (n : Nat) : Jstr := natReprGo (n + 1) n

/-- Decimal representation of an integer, as a JavaScript template literal
`${n}` produces it. -/
def intRepr (n : Int) : Jstr :=
  if n < 0 then '-' :: natRepr n.natAbs else natRepr n.natAbs

/-- Accumulating decimal parser over ASCII digits; `none` on any non-digit. -/
def parseNatAux : Jstr → Nat → Option Nat
  | [], acc => some acc
  | c :: rest, acc =>
      if isDigit c then parseNatAux rest (acc * 10 + digitVal c) else none

/-- Parse a non-empty all-digit string; `none` otherwise.  This is the
behavior of JavaScript `Number(s)` restricted to the digit strings the
engine feeds it (with `none` standing for `NaN`). -/
def parseNat? (s : Jstr) : Option Nat :=
  if s = [] then none else parseNatAux s 0

/-- JavaScript `Number(s)` on the strings produced by `String.split`:
the empty string converts to `0`, digit strings to their value, anything
else to `NaN` (modelled as `none`). -/
def jsNumber? (s : Jstr) : Option Int :=
  if s = [] then some 0 else (parseNat? s).map (fun n => (n : Int))

/-- `String.prototype.split` with a single-character separator. -/
def jsSplit (sep : Char) : Jstr → List Jstr
  | [] => [[]]
  | c :: rest =>
      let r := jsSplit sep rest
      if c = sep then [] :: r
      else
        match r with
        | g :: gs => (c :: g) :: gs
        | [] => [[c]]

/-- `String.prototype.padStart(2, '0')`. -/
def padStart2 (s : Jstr) : Jstr := if s.length < 2 then '0' :: s else s

/-! ## The Gregorian calendar (model of the ECMAScript `Date` type)

Day numbers count days since 1970-01-01.  `civilFromDays` recovers the
civil year/month/day of a day number via a century / year-in-century
decomposition of the 146097-day Gregorian era; `daysFromCivil` is the
standard closed form for the inverse. -/

/-- Civil `(year, month, day)` of a day number (days since 1970-01-01),
proleptic Gregorian. -/
def civilFromDays (z : Int) : Int × Int × Int :=
  let z' := z + 719468
  let era := z' / 146097
  let doe := z' - era * 146097
  let c := min (doe / 36524) 3
  let doc := doe - 36524 * c
  let yic := (4 * doc + 3) / 1461
  let doy := doc - (365 * yic + yic / 4)
  let y := 100 * c + yic + era * 400
  let mp := (5 * doy + 2) / 153
  let d := doy - (153 * mp + 2) / 5 + 1
  let m := mp + (if mp < 10 then 3 else -9)
  (if m ≤ 2 then y + 1 else y, m, d)

/-- Day number (days since 1970-01-01) of a civil date, proleptic
Gregorian.  For month in 1..12 this is the calendar position; arbitrary
integer months and days denormalize exactly like ECMAScript `MakeDay`. -/
def daysFromCivil (y m d : Int) : Int :=
  let y' := if m ≤ 2 then y - 1 else y
  let era := y' / 400
  let yoe := y' - era * 400
  let mp := if 2 < m then m - 3 else m + 9
  let doy := (153 * mp + 2) / 5 + d - 1
  let doe := yoe * 365 + yoe / 4 - yoe / 100 + doy
  era * 146097 + doe - 719468

/-- The year component of a day number. -/
def yearOf (z : Int) : Int := (civilFromDays z).1

/-- The month component of a day number. -/
def monthOf (z : Int) : Int := (civilFromDays z).2.1

/-- The day-of-month component of a day number. -/
def dayOf (z : Int) : Int := (civilFromDays z).2.2

/-- `new Date(y, monthIndex, day)` at local midnight: ECMAScript component
normalization (month overflow into years, day offsets from the first of
the month), including the mapping of year arguments 0–99 to 1900–1999.
Returns the day number of the resulting local date. -/
def jsMakeDay (y monthIndex day : Int) : Int :=
  daysFromCivil ((if 0 ≤ y ∧ y ≤ 99 then 1900 + y else y) + monthIndex / 12)
    (monthIndex % 12 + 1) 1 + (day - 1)

/-- `Date.prototype.getDay` (0 = Sunday) of a day number; day 0
(1970-01-01) was a Thursday. -/
def jsGetDay (z : Int) : Int := (z + 4) % 7

/-- Milliseconds per day. -/
def msPerDay : Int := 86400000

/-! ## ISO date/date-time string parsing (model of `new Date(string)`)

Only the shapes the engine actually receives are given a value: bare
`YYYY-MM-DD` dates and `YYYY-MM-DDTHH:MM[:SS[.mmm]][Z]` date-times with
in-range components.  Everything else is an invalid date (`none`).  At the
fixed zero offset of the model, the UTC interpretation of bare dates and
the local interpretation of date-times coincide. -/

/-- Does the string match `/^\d{4}-\d{2}-\d{2}$/`? -/
def isDateOnlyStr (s : Jstr) : Bool :=
  match s with
  | [a, b, c, d, h1, e, f, h2, g, h] =>
      isDigit a && isDigit b && isDigit c && isDigit d && h1 = '-' &&
      isDigit e && isDigit f && h2 = '-' && isDigit g && isDigit h
  | _ => false

/-- Number of days in a civil month (proleptic Gregorian). -/
def daysInMonth (y m : Int) : Int :=
  if m = 2 then (if y % 4 = 0 ∧ (y % 100 ≠ 0 ∨ y % 400 = 0) then 29 else 28)
  else if m = 4 ∨ m = 6 ∨ m = 9 ∨ m = 11 then 30
  else 31

/-- Parse the digit components of a `\d{4}-\d{2}-\d{2}` string. -/
def bareComponents? (s : Jstr) : Option (Int × Int × Int) :=
  match s with
  | [a, b, c, d, h1, e, f, h2, g, h] =>
      if isDigit a && isDigit b && isDigit c && isDigit d && h1 = '-' &&
         isDigit e && isDigit f && h2 = '-' && isDigit g && isDigit h then
        some (((digitVal a * 1000 + digitVal b * 100 + digitVal c * 10 + digitVal d : Nat) : Int),
              ((digitVal e * 10 + digitVal f : Nat) : Int),
              ((digitVal g * 10 + digitVal h : Nat) : Int))
      else none
  | _ => none

/-- Millisecond value of an ISO `YYYY-MM-DD` string under `Date.parse`,
`none` (invalid date) when a component is out of range. -/
def parseBareMs? (s : Jstr) : Option Int := do
  let (y, m, d) ← bareComponents? s
  if 1 ≤ m ∧ m ≤ 12 ∧ 1 ≤ d ∧ d ≤ daysInMonth y m then
    pure (daysFromCivil y m d * msPerDay)
  else none

/-- Parse `HH:MM[:SS[.mmm]]` to milliseconds from midnight. -/
def parseTimeMs? (s : Jstr) : Option Int :=
  match s with
  | [h1, h2, c1, m1, m2] =>
      if isDigit h1 && isDigit h2 && c1 = ':' && isDigit m1 && isDigit m2 then
        let hh := digitVal h1 * 10 + digitVal h2
        let mm := digitVal m1 * 10 + digitVal m2
        if hh ≤ 23 ∧ mm ≤ 59 then some (((hh * 3600000 + mm * 60000 : Nat) : Int)) else none
      else none
  | [h1, h2, c1, m1, m2, c2, s1, s2] =>
      if isDigit h1 && isDigit h2 && c1 = ':' && isDigit m1 && isDigit m2 &&
         c2 = ':' && isDigit s1 && isDigit s2 then
        let hh := digitVal h1 * 10 + digitVal h2
        let mm := digitVal m1 * 10 + digitVal m2
        let ss := digitVal s1 * 10 + digitVal s2
        if hh ≤ 23 ∧ mm ≤ 59 ∧ ss ≤ 59 then
          some (((hh * 3600000 + mm * 60000 + ss * 1000 : Nat) : Int))
        else none
      else none
  | _ => none

/-- Strip one trailing `Z` (UTC marker; identical to local time at the
model's zero offset). -/
def stripZ (s : Jstr) : Jstr :=
  if s.getLast? = some 'Z' then s.dropLast else s

/-- `new Date(s).getTime()` for the string shapes the engine receives:
bare ISO dates and `T`-separated ISO date-times; `none` is `NaN`
(an invalid date). -/
def jsDateMs? (s : Jstr) : Option Int :=
  match jsSplit 'T' s with
  | [_] => parseBareMs? s
  | [datePart, timePart] => do
      let dms ← parseBareMs? datePart
      let tms ← parseTimeMs? (stripZ timePart)
      pure (dms + tms)
  | _ => none

/-! ## The engine: embedding of `CalendarTab.tsx` -/

/-- `PASTEL_CLASSES.length`: the palette has 20 entries. -/
def PASTEL_COUNT : Int := 20

/-- `TIME_GRID_START`: the uncollapsed grid starts at midnight. -/
def TIME_GRID_START : Int := 0

/-- `TIME_GRID_END`: the grid always ends at hour 24. -/
def TIME_GRID_END : Int := 24

/-- `TIME_GRID_COLLAPSE_BEFORE_HOUR`: pre-dawn rows are hidden when no
event starts before 6 AM. -/
def TIME_GRID_COLLAPSE_BEFORE_HOUR : Int := 6

/-- The fields of a `CalendarEvent` record that the engine reads.  The TS
field `end` is a Lean keyword and is embedded as `endOpt`; the optional
`allDay` flag is only ever used as a truthy test, so an absent flag is
modelled as `false`. -/
structure CalendarEvent where
  start : Jstr
  endOpt : Option Jstr
  allDay : Bool
  calendarId : Option Jstr
deriving DecidableEq, Repr

/-- The string `"NaN-NaN-NaN"` that `dateToKey` produces from an invalid
date (`String(NaN)` is `"NaN"`, and `padStart(2, '0')` leaves it alone). -/
def nanKey : Jstr := "NaN-NaN-NaN".toList

/-- `dateToKey`: format a local date as `YYYY-MM-DD` from its local
year / month / day components, month and day zero-padded to two digits
(the year is not padded). -/
def dateToKey (z : Int) : Jstr :=
  intRepr (yearOf z) ++ '-' :: padStart2 (intRepr (monthOf z)) ++ '-' :: padStart2 (intRepr (dayOf z))

/-- `keyToDate`: split the key on `-`, convert the first three parts with
`Number`, and build `new Date(y, m - 1, d)`.  `none` models an invalid
date (fewer than three parts, or a non-numeric part). -/
def keyToDate (key : Jstr) : Option Int :=
  match jsSplit '-' key with
  | y :: m :: d :: _ => do
      let yv ← jsNumber? y
      let mv ← jsNumber? m
      let dv ← jsNumber? d
      pure (jsMakeDay yv (mv - 1) dv)
  | _ => none

/-- `getStartOfWeek`: back up `getDay()` days to the Sunday of the week
(already at midnight in the day-number model). -/
def getStartOfWeek (z : Int) : Int := z - jsGetDay z

/-- `getMinutesFromMidnight`: 0 for bare `YYYY-MM-DD` strings, otherwise
`getHours() * 60 + getMinutes()` of the parsed date-time (`none` = `NaN`,
from an unparsable string). -/
def getMinutesFromMidnight (s : Jstr) : Option Int :=
  if isDateOnlyStr s then some 0
  else (jsDateMs? s).map (fun ms => ms % msPerDay / 60000)

/-- `getDurationMinutes`: 60 for all-day events or events whose `end` is
falsy (`!ev.end` holds both for a missing end and for the empty string);
otherwise the start→end span rounded to the nearest minute
(`Math.round`, half toward +∞) and floored at 15. -/
def getDurationMinutes (ev : CalendarEvent) : Option Int :=
  if ev.allDay then some 60 else
  match ev.endOpt with
  | none => some 60
  | some e =>
      if e = [] then some 60
      else do
        let s ← jsDateMs? ev.start
        let en ← jsDateMs? e
        pure (max 15 ((en - s + 30000) / 60000))

/-- `getTimeGridPosition`: the top/height percentages of an event in the
time grid, written exactly as the source's clamp sequence.  `none` models
the NaN-poisoned result of an unparsable start or end.  (A zero-span grid
divides by zero; Lean yields 0 where JS yields NaN — every theorem below
assumes `gridStartHour < gridEndHour`.) -/
def getTimeGridPosition (ev : CalendarEvent) (gridStartHour gridEndHour : Int) :
    Option (ℚ × ℚ) := do
  let startMin ← getMinutesFromMidnight ev.start
  let durationMin ← getDurationMinutes ev
  let gridStartMin := gridStartHour * 60
  let gridEndMin := gridEndHour * 60
  let gridTotalMin := gridEndMin - gridStartMin
  let topMin0 := startMin - gridStartMin
  let topMin := if topMin0 < 0 then 0 else topMin0
  let endMinInGrid0 := startMin + durationMin - gridStartMin
  let endMinInGrid1 := if endMinInGrid0 > gridTotalMin then gridTotalMin else endMinInGrid0
  let endMinInGrid := if endMinInGrid1 < topMin then topMin else endMinInGrid1
  let heightMin := endMinInGrid - topMin
  pure ((topMin : ℚ) / (gridTotalMin : ℚ) * 100, (heightMin : ℚ) / (gridTotalMin : ℚ) * 100)

/-- `getEventDateKey`: bare-date starts pass through unchanged; otherwise
the key is formatted from the parsed date-time's local components
(an invalid date yields `"NaN-NaN-NaN"`). -/
def getEventDateKey (ev : CalendarEvent) : Jstr :=
  if isDateOnlyStr ev.start then ev.start
  else
    match jsDateMs? ev.start with
    | some ms => dateToKey (ms / msPerDay)
    | none => nanKey

/-- The `split('-').map(Number)` destructuring used by `getEventDateKeys`
(`none` models a NaN component; it never occurs on bare-date strings). -/
def splitNums (s : Jstr) : Option (Int × Int × Int) :=
  match jsSplit '-' s with
  | a :: b :: c :: _ => do
      let av ← jsNumber? a
      let bv ← jsNumber? b
      let cv ← jsNumber? c
      pure (av, bv, cv)
  | _ => none

/-- `getEventDateKeys`: the date keys an event occupies.  Timed events and
all-day events without a usable pair of bare dates occupy `[startKey]`;
all-day events with bare `start`/`end` occupy the half-open range of days
from start (inclusive) to end (exclusive), falling back to `[startKey]`
when that range is empty.  (`!ev.end` in JS is also true for an empty
string; the empty-string case is routed to `[startKey]` just as the
regex test would.) -/
def getEventDateKeys (ev : CalendarEvent) : List Jstr :=
  let startKey := getEventDateKey ev
  if ¬ev.allDay then [startKey] else
  match ev.endOpt with
  | none => [startKey]
  | some es =>
      if es = [] then [startKey]
      else if ¬(isDateOnlyStr ev.start ∧ isDateOnlyStr es) then [startKey]
      else
        match splitNums ev.start, splitNums es with
        | some (sy, sm, sd), some (ey, em, ed) =>
            let startD := jsMakeDay sy (sm - 1) sd
            let endD := jsMakeDay ey (em - 1) ed
            let keys := (List.range (endD - startD).toNat).map
              (fun (i : Nat) => dateToKey (startD + (i : Int)))
            if keys.length > 0 then keys else [startKey]
        | _, _ => [startKey]

/-- `Math.max(0, Math.min(PASTEL_COUNT - 1, idx))`. -/
def clampSlot (idx : Int) : Int := max 0 (min (PASTEL_COUNT - 1) idx)

/-- `new Set(...)`: keep the first occurrence of each element. -/
def dedupFirst : List Jstr → List Jstr
  | [] => []
  | a :: r => a :: (dedupFirst r).filter (fun b => b ≠ a)

/-- JavaScript default string comparison (code-unit lexicographic;
identical to code-point order for the ids the engine sees). -/
def lexLe : Jstr → Jstr → Bool
  | [], _ => true
  | _ :: _, [] => false
  | a :: as, b :: bs => if a < b then true else if b < a then false else lexLe as bs

/-- The sort order used by `Array.prototype.sort()`. -/
def strLe (a b : Jstr) : Prop := lexLe a b = true

/-- Strict version of `strLe`. -/
def strLt (a b : Jstr) : Prop := strLe a b ∧ a ≠ b

instance : DecidableRel strLe := fun a b =>
  inferInstanceAs (Decidable (lexLe a b = true))

instance : DecidableRel strLt := fun a b =>
  inferInstanceAs (Decidable (strLe a b ∧ a ≠ b))

instance : IsTotal Jstr strLe where
  total := by
    intro a
    unfold strLe
    induction a with
    | nil => intro b; exact Or.inl rfl
    | cons c as ih =>
      intro b
      cases b with
      | nil => exact Or.inr rfl
      | cons d bs =>
        show (if c < d then true else if d < c then false else lexLe as bs) = true ∨
          (if d < c then true else if c < d then false else lexLe bs as) = true
        rcases lt_trichotomy c d with h | h | h
        · exact Or.inl (by rw [if_pos h])
        · subst h
          rw [if_neg (lt_irrefl c), if_neg (lt_irrefl c), if_neg (lt_irrefl c),
            if_neg (lt_irrefl c)]
          exact ih bs
        · exact Or.inr (by rw [if_pos h])

instance : IsTrans Jstr strLe where
  trans := by
    intro a
    unfold strLe
    induction a with
    | nil => intro b c _ _; rfl
    | cons x as ih =>
      intro b c h1 h2
      cases b with
      | nil => cases h1
      | cons y bs =>
        cases c with
        | nil => cases h2
        | cons z cs =>
          rw [show lexLe (x :: as) (y :: bs) =
            (if x < y then true else if y < x then false else lexLe as bs) from rfl] at h1
          rw [show lexLe (y :: bs) (z :: cs) =
            (if y < z then true else if z < y then false else lexLe bs cs) from rfl] at h2
          show (if x < z then true else if z < x then false else lexLe as cs) = true
          rcases lt_trichotomy x y with hxy | rfl | hxy
          · rcases lt_trichotomy y z with hyz | rfl | hyz
            · rw [if_pos (lt_trans hxy hyz)]
            · rw [if_pos hxy]
            · rw [if_neg (lt_asymm hyz), if_pos hyz] at h2
              cases h2
          · rw [if_neg (lt_irrefl x), if_neg (lt_irrefl x)] at h1
            rcases lt_trichotomy x z with hxz | rfl | hxz
            · rw [if_pos hxz]
            · rw [if_neg (lt_irrefl x), if_neg (lt_irrefl x)] at h2 ⊢
              exact ih bs cs h1 h2
            · rw [if_neg (lt_asymm hxz), if_pos hxz] at h2
              cases h2
          · rw [if_neg (lt_asymm hxy), if_pos hxy] at h1
            cases h1

instance : IsAntisymm Jstr strLe where
  antisymm := by
    intro a
    unfold strLe
    induction a with
    | nil =>
      intro b _ h2
      cases b with
      | nil => rfl
      | cons d bs => cases h2
    | cons x as ih =>
      intro b h1 h2
      cases b with
      | nil => cases h1
      | cons y bs =>
        rw [show lexLe (x :: as) (y :: bs) =
          (if x < y then true else if y < x then false else lexLe as bs) from rfl] at h1
        rw [show lexLe (y :: bs) (x :: as) =
          (if y < x then true else if x < y then false else lexLe bs as) from rfl] at h2
        rcases lt_trichotomy x y with hxy | rfl | hxy
        · rw [if_neg (lt_asymm hxy), if_pos hxy] at h2
          cases h2
        · rw [if_neg (lt_irrefl x), if_neg (lt_irrefl x)] at h1 h2
          rw [ih bs h1 h2]
        · rw [if_neg (lt_asymm hxy), if_pos hxy] at h1
          cases h1

/-- `Array.prototype.sort()` with the default (lexicographic) comparator. -/
def sortIds (l : List Jstr) : List Jstr := List.insertionSort strLe l

/-- The distinct, truthy calendar ids of an event batch, in first-seen
order: the elements of the engine's `new Set(events.map(e =>
e.calendarId).filter(Boolean))` (so ids that are absent *or the empty
string* are dropped). -/
def distinctIds (events : List CalendarEvent) : List Jstr :=
  dedupFirst (((events.map CalendarEvent.calendarId).reduceOption).filter (fun s => s ≠ []))

/-- `buildCalendarColorMap`: a non-empty explicit `calendarColors` record
is used directly with every slot clamped into the palette; otherwise the
distinct truthy `calendarId`s are sorted lexicographically and assigned
`index % PASTEL_COUNT`.  A JS `Map` is modelled as its insertion-ordered
entry list. -/
def buildCalendarColorMap (events : List CalendarEvent)
    (calendarColors : Option (List (Jstr × Int))) : List (Jstr × Int) :=
  match calendarColors with
  | some entries =>
      if entries.length > 0 then entries.map (fun p => (p.1, clampSlot p.2))
      else (sortIds (distinctIds events)).enum.map (fun p => (p.2, (p.1 : Int) % PASTEL_COUNT))
  | none => (sortIds (distinctIds events)).enum.map (fun p => (p.2, (p.1 : Int) % PASTEL_COUNT))

/-- `Map.prototype.get` on the entry-list model. -/
def mapGet (m : List (Jstr × Int)) (k : Jstr) : Option Int :=
  (m.find? (fun p => p.1 = k)).map Prod.snd

/-- `eventsByDay`: the bucket of a key holds, in input order, every event
one of whose occupied date keys is that key — the direct description of
the imperative push loop in the source. -/
def eventsByDay (events : List CalendarEvent) (key : Jstr) : List CalendarEvent :=
  events.filter (fun ev => key ∈ getEventDateKeys ev)

/-- `renderDayColumn`'s continuation flag: `key !== getEventDateKey(ev)`. -/
def isContinuation (ev : CalendarEvent) (key : Jstr) : Bool :=
  key ≠ getEventDateKey ev

/-- `renderTimeGrid`'s `allTimedInView`: the non-all-day events of each
visible day's bucket, flattened in day order. -/
def allTimedInView (days : List Jstr) (events : List CalendarEvent) : List CalendarEvent :=
  (days.map (fun d => (eventsByDay events d).filter (fun e => ¬e.allDay))).flatten

/-- `Math.min` of two possibly-NaN numbers (NaN absorbs). -/
def jmin : Option Int → Option Int → Option Int
  | some a, some b => some (min a b)
  | _, _ => none

/-- `renderTimeGrid`'s `earliestStartMin`: `Math.min` over the visible
timed events' start minutes, or `TIME_GRID_END * 60` when none are
visible (`none` models a NaN minimum). -/
def earliestStartMin (days : List Jstr) (events : List CalendarEvent) : Option Int :=
  match (allTimedInView days events).map (fun ev => getMinutesFromMidnight ev.start) with
  | [] => some (TIME_GRID_END * 60)
  | x :: xs => xs.foldl jmin x

/-- `renderTimeGrid`'s `gridStartHour`: collapse the grid to 6 AM unless
the earliest start minute is before 6 AM (a NaN earliest compares false
and also collapses). -/
def computeGridStartHour (days : List Jstr) (events : List CalendarEvent) : Int :=
  match earliestStartMin days events with
  | some v =>
      if v < TIME_GRID_COLLAPSE_BEFORE_HOUR * 60 then TIME_GRID_START
      else TIME_GRID_COLLAPSE_BEFORE_HOUR
  | none => TIME_GRID_COLLAPSE_BEFORE_HOUR

/-- `renderTimeGrid`'s `gridEndHour`: always the end of day. -/
def computeGridEndHour : Int := TIME_GRID_END

/-! ## Window / navigation computation (the `useMemo` body) -/

/-- The biweekly rows: the 14 days from `getStartOfWeek(today)`, sliced
into two rows of 7. -/
def weekRowsBiweekly (today : Int) : List (List Jstr) :=
  let start := getStartOfWeek today
  let days14 := (List.range 14).map (fun (i : Nat) => dateToKey (start + (i : Int)))
  [days14.take 7, (days14.drop 7).take 7]

/-- The weekly strip: 7 days from the start of the selected date's week;
an unparsable selected key NaN-poisons every cell. -/
def days7Weekly (selectedDateKey : Jstr) : List Jstr :=
  match keyToDate selectedDateKey with
  | some sel => (List.range 7).map (fun (i : Nat) => dateToKey (getStartOfWeek sel + (i : Int)))
  | none => (List.range 7).map (fun _ => nanKey)

/-- The `startPad` of the monthly grid:
`getStartOfWeek(new Date(today.getFullYear(), today.getMonth(), 1))`. -/
def monthlyStartPad (today : Int) : Int :=
  getStartOfWeek (jsMakeDay (yearOf today) (monthOf today - 1) 1)

/-- The monthly filter: keep a row when its seventh cell parses to a date
on or after today's start of day (`keyToDate(row[6].key) >= todayStart`,
with an invalid date comparing false). -/
def monthlyRowKeep (today : Int) (row : List Jstr) : Bool :=
  match row.get? 6 with
  | some k =>
      match keyToDate k with
      | some z => z ≥ today
      | none => false
  | none => false

/-- The monthly rows: a fixed 6-row grid of 42 consecutive days starting
at `monthlyStartPad`, filtered by `monthlyRowKeep`. -/
def weekRowsMonthly (today : Int) : List (List Jstr) :=
  let weeks := (List.range 6).map
    (fun (r : Nat) => (List.range 7).map
      (fun (c0 : Nat) => dateToKey (monthlyStartPad today + 7 * (r : Int) + (c0 : Int))))
  weeks.filter (monthlyRowKeep today)

/-- The three window components the `useMemo` returns (labels, being
locale-dependent display strings, are out of the engine's scope). -/
structure CalendarWindows where
  biweekly : List (List Jstr)
  monthly : List (List Jstr)
  weekly : List Jstr
deriving DecidableEq, Repr

/-- The whole window computation, as a function of the clock (`today`)
and the caller-held `selectedDateKey`. -/
def calendarWindows (today : Int) (selectedDateKey : Jstr) : CalendarWindows :=
  { biweekly := weekRowsBiweekly today
    monthly := weekRowsMonthly today
    weekly := days7Weekly selectedDateKey }

/-- The daily-mode Previous button:
`dateToKey(new Date(keyToDate(k).getTime() - 86400000))`. -/
def navDailyPrev (k : Jstr) : Jstr :=
  match keyToDate k with
  | some z => dateToKey ((z * msPerDay - msPerDay) / msPerDay)
  | none => nanKey

/-- The daily-mode Next button:
`dateToKey(new Date(keyToDate(k).getTime() + 86400000))`. -/
def navDailyNext (k : Jstr) : Jstr :=
  match keyToDate k with
  | some z => dateToKey ((z * msPerDay + msPerDay) / msPerDay)
  | none => nanKey

/-! ## Concrete fixtures used in witnesses and counterexamples -/

/-- A timed event starting 2025-06-15 at 09:00. -/
def evNine : CalendarEvent :=
  { start := "2025-06-15T09:00:00".toList, endOpt := none,
    allDay := false, calendarId := none }

/-- A timed event starting 2025-06-15 at 05:00. -/
def evFive : CalendarEvent :=
  { start := "2025-06-15T05:00:00".toList, endOpt := none,
    allDay := false, calendarId := none }

/-- A 90-minute timed event starting 2025-06-15 at 23:30. -/
def evLate : CalendarEvent :=
  { start := "2025-06-15T23:30:00".toList, endOpt := some "2025-06-16T01:00:00".toList,
    allDay := false, calendarId := none }

/-- A timed event starting 2025-06-15 at 09:00 with an empty-string `end`
(falsy in the source's `!ev.end` guard, so its duration is 60). -/
def evEmptyEnd : CalendarEvent :=
  { start := "2025-06-15T09:00:00".toList, endOpt := some [],
    allDay := false, calendarId := none }

/-- The spec's multi-day all-day example: June 1 to June 4 (exclusive). -/
def evJune : CalendarEvent :=
  { start := "2025-06-01".toList, endOpt := some "2025-06-04".toList,
    allDay := true, calendarId := none }

/-- The spec's degenerate all-day example: end equals start. -/
def evJuneDeg : CalendarEvent :=
  { start := "2025-06-01".toList, endOpt := some "2025-06-01".toList,
    allDay := true, calendarId := none }

/-- An all-day event whose bare start `2025-06-31` denormalizes. -/
def evBadStart : CalendarEvent :=
  { start := "2025-06-31".toList, endOpt := some "2025-07-03".toList,
    allDay := true, calendarId := none }

/-- An all-day event in year 50, hit by the 0–99 year rule. -/
def evYear50 : CalendarEvent :=
  { start := "0050-06-01".toList, endOpt := some "0050-06-03".toList,
    allDay := true, calendarId := none }

/-- An event with calendar id `b@x`. -/
def evIdB : CalendarEvent :=
  { start := [], endOpt := none, allDay := false, calendarId := some "b@x".toList }

/-- An event with calendar id `a@x`. -/
def evIdA : CalendarEvent :=
  { start := [], endOpt := none, allDay := false, calendarId := some "a@x".toList }

/-- An event with an empty-string calendar id. -/
def evIdEmpty : CalendarEvent :=
  { start := [], endOpt := none, allDay := false, calendarId := some [] }

/-! ## Spec-side definitions

These two definitions are written from the claims' words (not from the
source) and exist only to be compared against the engine's behavior. -/

/-- Modelled from the claim: the monthly view's rows are the calendar-grid
rows from `startOfWeek(firstOfMonth)` continuing row by row only until a
row's last day is on or after the month's end, with rows whose last day is
strictly before today's start of day removed. -/
def specMonthlyRows (today : Int) : List (List Jstr) :=
  let startPad := monthlyStartPad today
  let endOfMonth := jsMakeDay (yearOf today) (monthOf today) 1 - 1
  let nRows := ((endOfMonth - startPad) / 7 + 1).toNat
  ((List.range nRows).map
    (fun (r : Nat) => (List.range 7).map
      (fun (c0 : Nat) => dateToKey (startPad + 7 * (r : Int) + (c0 : Int))))).filter
    (monthlyRowKeep today)

/-- Modelled from the claim: map each distinct `calendarId` appearing in
the events (only events *without* a `calendarId` excluded) to its rank in
lexicographically sorted order, mod the palette size. -/
def specColorMap (events : List CalendarEvent) : List (Jstr × Int) :=
  (sortIds (dedupFirst ((events.map CalendarEvent.calendarId).reduceOption))).enum.map
    (fun p => (p.2, (p.1 : Int) % PASTEL_COUNT))

/-! ## Derived notions used in the theorem statements -/

/-- A canonical bare date key: it matches the bare-date pattern and
formatting its parse yields the key back (this rules out denormalizing
keys such as `"2025-06-31"` and two-digit-quirk years such as `"0050"`). -/
def canonKey (s : Jstr) : Bool :=
  isDateOnlyStr s &&
    match keyToDate s with
    | some z => dateToKey z = s
    | none => false


/-! ## Arithmetic facts about the calendar model

`omega` does not see through nested division atoms, so the two calendar
conversions are first re-expressed with every division applied to a plain
variable (`civil_flat`, `daysFromCivil_flat`); the arithmetic lemmas then
follow by `omega` on the flattened systems. -/

/-- Flattened form of `civilFromDays`. -/
theorem civil_flat (z : Int) :
    ∃ era doe c doc yic q4c doy mp q153 d m : Int,
      era = (z + 719468) / 146097 ∧
      doe = z + 719468 - era * 146097 ∧
      c = min (doe / 36524) 3 ∧
      doc = doe - 36524 * c ∧
      yic = (4 * doc + 3) / 1461 ∧
      q4c = yic / 4 ∧
      doy = doc - (365 * yic + q4c) ∧
      mp = (5 * doy + 2) / 153 ∧
      q153 = (153 * mp + 2) / 5 ∧
      d = doy - q153 + 1 ∧
      m = mp + (if mp < 10 then 3 else -9) ∧
      civilFromDays z = (100 * c + yic + era * 400 + (if m ≤ 2 then 1 else 0), m, d) := by
  refine ⟨_, _, _, _, _, _, _, _, _, _, _,
    rfl, rfl, rfl, rfl, rfl, rfl, rfl, rfl, rfl, rfl, rfl, ?_⟩
  simp only [civilFromDays]
  split_ifs <;> simp_all

/-- Flattened form of `daysFromCivil`. -/
theorem daysFromCivil_flat (y m d : Int) :
    ∃ y2 era yoe mp q4 q100 : Int,
      y2 = (if m ≤ 2 then y - 1 else y) ∧
      era = y2 / 400 ∧
      yoe = y2 - era * 400 ∧
      mp = (if 2 < m then m - 3 else m + 9) ∧
      q4 = yoe / 4 ∧
      q100 = yoe / 100 ∧
      daysFromCivil y m d =
        era * 146097 + (yoe * 365 + q4 - q100 + ((153 * mp + 2) / 5 + d - 1)) - 719468 := by
  refine ⟨_, _, _, _, _, _, rfl, rfl, rfl, rfl, rfl, rfl, ?_⟩
  simp only [daysFromCivil]

/-- The civil components of a day number, in flattened form. -/
theorem civil_components (z : Int) :
    ∃ era doe c doc yic q4c doy mp q153 d m : Int,
      era = (z + 719468) / 146097 ∧
      doe = z + 719468 - era * 146097 ∧
      c = min (doe / 36524) 3 ∧
      doc = doe - 36524 * c ∧
      yic = (4 * doc + 3) / 1461 ∧
      q4c = yic / 4 ∧
      doy = doc - (365 * yic + q4c) ∧
      mp = (5 * doy + 2) / 153 ∧
      q153 = (153 * mp + 2) / 5 ∧
      d = doy - q153 + 1 ∧
      m = mp + (if mp < 10 then 3 else -9) ∧
      yearOf z = 100 * c + yic + era * 400 + (if m ≤ 2 then 1 else 0) ∧
      monthOf z = m ∧ dayOf z = d := by
  obtain ⟨era, doe, c, doc, yic, q4c, doy, mp, q153, d, m,
    h1, h2, h3, h4, h5, h6, h7, h8, h9, h10, h11, h12⟩ := civil_flat z
  exact ⟨era, doe, c, doc, yic, q4c, doy, mp, q153, d, m,
    h1, h2, h3, h4, h5, h6, h7, h8, h9, h10, h11,
    by unfold yearOf; rw [h12], by unfold monthOf; rw [h12], by unfold dayOf; rw [h12]⟩

/-- The two calendar conversions are mutually inverse: converting a day
number to its civil date and back is the identity. -/
theorem daysFromCivil_civilFromDays (z : Int) :
    daysFromCivil (yearOf z) (monthOf z) (dayOf z) = z := by
  obtain ⟨era, doe, c, doc, yic, q4c, doy, mp, q153, d, m,
    h1, h2, h3, h4, h5, h6, h7, h8, h9, h10, h11, hy, hm, hd⟩ := civil_components z
  rw [hy, hm, hd]
  obtain ⟨y2, era2, yoe2, mp2, q4, q100, g1, g2, g3, g4, g5, g6, g7⟩ :=
    daysFromCivil_flat (100 * c + yic + era * 400 + (if m ≤ 2 then 1 else 0)) m d
  rw [g7]
  have hdoe : 0 ≤ doe ∧ doe ≤ 146096 := by omega
  have hc : 0 ≤ c ∧ c ≤ 3 ∧ 0 ≤ doc ∧ doc ≤ 36524 ∧ (c < 3 → doc ≤ 36523) := by omega
  have hyic : 0 ≤ yic ∧ yic ≤ 99 ∧ 365 * yic + q4c ≤ doc ∧
      doc ≤ 365 * yic + q4c + 365 := by omega
  have hdoy : 0 ≤ doy ∧ doy ≤ 365 := by omega
  have hmp : 0 ≤ mp ∧ mp ≤ 11 ∧ 1 ≤ d ∧ d ≤ 31 ∧ q153 + d - 1 = doy := by omega
  have hy2 : y2 = 100 * c + yic + era * 400 := by split_ifs at * <;> omega
  have hrec : era2 = era ∧ yoe2 = 100 * c + yic := by omega
  have hq : q4 = 25 * c + q4c ∧ q100 = c := by omega
  have hmp2 : mp2 = mp := by split_ifs at * <;> omega
  omega

/-- The civil components of a day number are in calendar range. -/
theorem civilFromDays_ranges (z : Int) :
    1 ≤ monthOf z ∧ monthOf z ≤ 12 ∧ 1 ≤ dayOf z ∧ dayOf z ≤ 31 := by
  obtain ⟨era, doe, c, doc, yic, q4c, doy, mp, q153, d, m,
    h1, h2, h3, h4, h5, h6, h7, h8, h9, h10, h11, hy, hm, hd⟩ := civil_components z
  rw [hm, hd]
  have hdoe : 0 ≤ doe ∧ doe ≤ 146096 := by omega
  have hc : 0 ≤ c ∧ c ≤ 3 ∧ 0 ≤ doc ∧ doc ≤ 36524 := by omega
  have hyic : 0 ≤ yic ∧ yic ≤ 99 ∧ 365 * yic + q4c ≤ doc ∧
      doc ≤ 365 * yic + q4c + 365 := by omega
  have hdoy : 0 ≤ doy ∧ doy ≤ 365 := by omega
  have hmp : 0 ≤ mp ∧ mp ≤ 11 ∧ 1 ≤ d ∧ d ≤ 31 := by omega
  split_ifs at h11 <;> omega

/-- `daysFromCivil` is an affine function of the day argument. -/
theorem daysFromCivil_day (y m d : Int) :
    daysFromCivil y m d = daysFromCivil y m 1 + (d - 1) := by
  obtain ⟨y2, era2, yoe2, mp2, q4, q100, g1, g2, g3, g4, g5, g6, g7⟩ :=
    daysFromCivil_flat y m d
  obtain ⟨y2b, era2b, yoe2b, mp2b, q4b, q100b, k1, k2, k3, k4, k5, k6, k7⟩ :=
    daysFromCivil_flat y m 1
  rw [g7, k7]
  have hy2 : y2 = y2b := by rw [g1, k1]
  have hmp : mp2 = mp2b := by rw [g4, k4]
  subst hy2 hmp
  omega

/-- Every day number lies within 30 days after the first of its month. -/
theorem firstOfMonth_window (z : Int) :
    daysFromCivil (yearOf z) (monthOf z) 1 ≤ z ∧
    z ≤ daysFromCivil (yearOf z) (monthOf z) 1 + 30 := by
  have h1 := daysFromCivil_civilFromDays z
  have h2 := civilFromDays_ranges z
  have h3 := daysFromCivil_day (yearOf z) (monthOf z) (dayOf z)
  omega

/-- Once the year of a day number reaches 100, the years of all later day
numbers are also at least 100. -/
theorem yearOf_ge_mono (z w : Int) (hz : 100 ≤ yearOf z) (hzw : z ≤ w) :
    100 ≤ yearOf w := by
  obtain ⟨era, doe, c, doc, yic, q4c, doy, mp, q153, d, m,
    a1, a2, a3, a4, a5, a6, a7, a8, a9, a10, a11, ha, _, _⟩ := civil_components z
  obtain ⟨eraw, doew, cw, docw, yicw, q4cw, doyw, mpw, q153w, dw, mw,
    b1, b2, b3, b4, b5, b6, b7, b8, b9, b10, b11, hb, _, _⟩ := civil_components w
  rw [hb]; rw [ha] at hz
  have u1 : 0 ≤ doe ∧ doe ≤ 146096 := by omega
  have u2 : 0 ≤ c ∧ c ≤ 3 ∧ 0 ≤ doc ∧ doc ≤ 36524 ∧ (c < 3 → doc ≤ 36523) := by omega
  have u3 : 0 ≤ yic ∧ yic ≤ 99 ∧ 365 * yic + q4c ≤ doc ∧
      doc ≤ 365 * yic + q4c + 365 := by omega
  have u4 : 0 ≤ doy ∧ doy ≤ 365 := by omega
  have u5 : 0 ≤ mp ∧ mp ≤ 11 := by omega
  have v1 : 0 ≤ doew ∧ doew ≤ 146096 := by omega
  have v2 : 0 ≤ cw ∧ cw ≤ 3 ∧ 0 ≤ docw ∧ docw ≤ 36524 ∧ (cw < 3 → docw ≤ 36523) := by omega
  have v3 : 0 ≤ yicw ∧ yicw ≤ 99 ∧ 365 * yicw + q4cw ≤ docw ∧
      docw ≤ 365 * yicw + q4cw + 365 := by omega
  have v4 : 0 ≤ doyw ∧ doyw ≤ 365 := by omega
  have v5 : 0 ≤ mpw ∧ mpw ≤ 11 := by omega
  have hww : era * 146097 + doe ≤ eraw * 146097 + doew := by omega
  split_ifs at * <;> omega

/-- `new Date(y, m - 1, d)` for a four-digit-safe year and a calendar
month is plain `daysFromCivil`. -/
theorem jsMakeDay_valid (y m d : Int) (hy : 100 ≤ y) (h1 : 1 ≤ m) (h2 : m ≤ 12) :
    jsMakeDay y (m - 1) d = daysFromCivil y m d := by
  unfold jsMakeDay
  rw [if_neg (by omega), (by omega : (m - 1) / 12 = 0), add_zero,
    (by omega : (m - 1) % 12 = m - 1), (by omega : m - 1 + 1 = m), daysFromCivil_day y m d]

/-! ## String formatting / parsing lemmas -/

/-- The digit characters really are digits with the right values. -/
theorem digitChar_spec (n : Nat) (h : n < 10) :
    isDigit (digitChar n) = true ∧ digitVal (digitChar n) = n ∧ digitChar n ≠ '-' := by
  interval_cases n <;> refine ⟨by decide, by decide, by decide⟩

/-- Spending more than enough fuel does not change the expansion. -/
theorem natReprGo_irrel (n : Nat) : ∀ f1 f2, n < f1 → n < f2 →
    natReprGo f1 n = natReprGo f2 n := by
  induction n using Nat.strong_induction_on with
  | _ n ih =>
    intro f1 f2 h1 h2
    match f1, f2 with
    | g1 + 1, g2 + 1 =>
      show (if n < 10 then [digitChar n] else natReprGo g1 (n / 10) ++ [digitChar (n % 10)]) =
        (if n < 10 then [digitChar n] else natReprGo g2 (n / 10) ++ [digitChar (n % 10)])
      split_ifs with h
      · rfl
      · have hlt : n / 10 < n := Nat.div_lt_self (by omega) (by omega)
        rw [ih (n / 10) hlt g1 g2 (by omega) (by omega)]

/-- The recursion equation of `natRepr`. -/
theorem natRepr_eq (n : Nat) :
    natRepr n = if n < 10 then [digitChar n]
      else natRepr (n / 10) ++ [digitChar (n % 10)] := by
  show natReprGo (n + 1) n = _
  show (if n < 10 then [digitChar n] else natReprGo n (n / 10) ++ [digitChar (n % 10)]) = _
  split_ifs with h
  · rfl
  · have hlt : n / 10 < n := Nat.div_lt_self (by omega) (by omega)
    rw [natReprGo_irrel (n / 10) n (n / 10 + 1) hlt (by omega)]
    rfl

/-- Decimal representations are non-empty. -/
theorem natRepr_ne_nil (n : Nat) : natRepr n ≠ [] := by
  rw [natRepr_eq]
  split_ifs <;> simp

/-- Every character of a decimal representation is a digit. -/
theorem natRepr_digits (n : Nat) : ∀ c ∈ natRepr n, isDigit c = true := by
  induction n using Nat.strong_induction_on with
  | _ n ih =>
    rw [natRepr_eq]
    split_ifs with h
    · intro c hc
      simp only [List.mem_singleton] at hc
      subst hc
      exact (digitChar_spec n h).1
    · intro c hc
      rcases List.mem_append.mp hc with h1 | h1
      · exact ih (n / 10) (Nat.div_lt_self (by omega) (by omega)) c h1
      · simp only [List.mem_singleton] at h1
        subst h1
        exact (digitChar_spec (n % 10) (Nat.mod_lt _ (by omega))).1

/-- `parseNatAux` processes appended strings sequentially. -/
theorem parseNatAux_append (a b : Jstr) (acc : Nat) :
    parseNatAux (a ++ b) acc =
      match parseNatAux a acc with
      | some v => parseNatAux b v
      | none => none := by
  induction a generalizing acc with
  | nil => rfl
  | cons c r ih =>
    simp only [List.cons_append, parseNatAux]
    split_ifs <;> simp [ih]

/-- Parsing a decimal representation with an accumulator. -/
theorem parseNatAux_natRepr (n : Nat) :
    ∀ acc, parseNatAux (natRepr n) acc = some (acc * 10 ^ (natRepr n).length + n) := by
  induction n using Nat.strong_induction_on with
  | _ n ih =>
    intro acc
    rw [natRepr_eq]
    split_ifs with h
    · obtain ⟨h1, h2, _⟩ := digitChar_spec n h
      simp [parseNatAux, h1, h2]
    · rw [parseNatAux_append]
      rw [ih (n / 10) (Nat.div_lt_self (by omega) (by omega)) acc]
      obtain ⟨h1, h2, _⟩ := digitChar_spec (n % 10) (Nat.mod_lt _ (by omega))
      simp only [parseNatAux, h1, if_pos, h2, List.length_append, List.length_singleton]
      refine congrArg some ?_
      rw [pow_succ 10 (natRepr (n / 10)).length]
      generalize (10 : Nat) ^ (natRepr (n / 10)).length = P
      rw [Nat.add_mul, ← Nat.mul_assoc]
      generalize acc * P = Q
      omega

/-- Parsing inverts formatting for naturals. -/
theorem parseNat?_natRepr (n : Nat) : parseNat? (natRepr n) = some n := by
  rw [parseNat?, if_neg (natRepr_ne_nil n), parseNatAux_natRepr n 0]
  simp

/-- `Number` inverts formatting for naturals. -/
theorem jsNumber?_natRepr (n : Nat) : jsNumber? (natRepr n) = some ((n : Nat) : Int) := by
  rw [jsNumber?, if_neg (natRepr_ne_nil n), parseNat?_natRepr]
  rfl

/-- `Number` also inverts formatting through the 2-padding. -/
theorem jsNumber?_padStart2_natRepr (n : Nat) :
    jsNumber? (padStart2 (natRepr n)) = some ((n : Nat) : Int) := by
  unfold padStart2
  split_ifs with h
  · rw [jsNumber?, if_neg (by simp), parseNat?, if_neg (by simp)]
    show (parseNatAux (natRepr n) (0 * 10 + digitVal '0')).map (fun n => (n : Int)) = _
    rw [show (0 * 10 + digitVal '0') = 0 from by decide, parseNatAux_natRepr n 0]
    simp
  · exact jsNumber?_natRepr n

/-- Decimal representations contain no dash. -/
theorem natRepr_no_dash (n : Nat) : '-' ∉ natRepr n := by
  intro hc
  have := natRepr_digits n '-' hc
  simp [isDigit] at this

/-- Padded decimal representations contain no dash. -/
theorem padStart2_natRepr_no_dash (n : Nat) : '-' ∉ padStart2 (natRepr n) := by
  unfold padStart2
  split_ifs with h
  · intro hc
    rcases List.mem_cons.mp hc with h1 | h1
    · exact absurd h1 (by decide)
    · exact natRepr_no_dash n h1
  · exact natRepr_no_dash n

/-- Splitting a string that does not contain the separator. -/
theorem jsSplit_no_sep (sep : Char) (s : Jstr) (h : sep ∉ s) : jsSplit sep s = [s] := by
  induction s with
  | nil => rfl
  | cons c r ih =>
    have hc : ¬c = sep := fun he => h (he ▸ List.mem_cons_self c r)
    have hr : sep ∉ r := fun he => h (List.mem_cons_of_mem c he)
    show (if c = sep then [] :: jsSplit sep r
      else match jsSplit sep r with
        | g :: gs => (c :: g) :: gs
        | [] => [[c]]) = [c :: r]
    rw [if_neg hc, ih hr]

/-- Splitting at the first separator occurrence. -/
theorem jsSplit_sep_append (sep : Char) (a b : Jstr) (h : sep ∉ a) :
    jsSplit sep (a ++ sep :: b) = a :: jsSplit sep b := by
  induction a with
  | nil =>
    show (if sep = sep then [] :: jsSplit sep b
      else match jsSplit sep b with
        | g :: gs => (sep :: g) :: gs
        | [] => [[sep]]) = [] :: jsSplit sep b
    rw [if_pos rfl]
  | cons c r ih =>
    have hc : ¬c = sep := fun he => h (he ▸ List.mem_cons_self c r)
    have hr : sep ∉ r := fun he => h (List.mem_cons_of_mem c he)
    show (if c = sep then [] :: jsSplit sep (r ++ sep :: b)
      else match jsSplit sep (r ++ sep :: b) with
        | g :: gs => (c :: g) :: gs
        | [] => [[c]]) = (c :: r) :: jsSplit sep b
    rw [if_neg hc, ih hr]

/-- Splitting a generated date key recovers its three components. -/
theorem jsSplit_dateToKey (z : Int) (hy : 0 ≤ yearOf z) :
    jsSplit '-' (dateToKey z) =
      [intRepr (yearOf z), padStart2 (intRepr (monthOf z)), padStart2 (intRepr (dayOf z))] := by
  have hr := civilFromDays_ranges z
  have hy' : intRepr (yearOf z) = natRepr (yearOf z).natAbs := by
    unfold intRepr
    rw [if_neg (by omega)]
  have hm' : intRepr (monthOf z) = natRepr (monthOf z).natAbs := by
    unfold intRepr
    rw [if_neg (by omega)]
  have hd' : intRepr (dayOf z) = natRepr (dayOf z).natAbs := by
    unfold intRepr
    rw [if_neg (by omega)]
  unfold dateToKey
  simp only [List.cons_append, List.append_assoc]
  rw [jsSplit_sep_append '-' _ _ (hy' ▸ natRepr_no_dash _),
    jsSplit_sep_append '-' _ _ (hm' ▸ padStart2_natRepr_no_dash _),
    jsSplit_no_sep '-' _ (hd' ▸ padStart2_natRepr_no_dash _)]

/-- For dates in years ≥ 100, `keyToDate` inverts `dateToKey`. -/
theorem keyToDate_dateToKey (z : Int) (hy : 100 ≤ yearOf z) :
    keyToDate (dateToKey z) = some z := by
  have hr := civilFromDays_ranges z
  unfold keyToDate
  rw [jsSplit_dateToKey z (by omega)]
  have hy' : intRepr (yearOf z) = natRepr (yearOf z).natAbs := by
    unfold intRepr; rw [if_neg (by omega)]
  have hm' : intRepr (monthOf z) = natRepr (monthOf z).natAbs := by
    unfold intRepr; rw [if_neg (by omega)]
  have hd' : intRepr (dayOf z) = natRepr (dayOf z).natAbs := by
    unfold intRepr; rw [if_neg (by omega)]
  rw [hy', hm', hd']
  have e1 : jsNumber? (natRepr (yearOf z).natAbs) = some (yearOf z) := by
    rw [jsNumber?_natRepr]
    refine congrArg some ?_
    omega
  have e2 : jsNumber? (padStart2 (natRepr (monthOf z).natAbs)) = some (monthOf z) := by
    rw [jsNumber?_padStart2_natRepr]
    refine congrArg some ?_
    omega
  have e3 : jsNumber? (padStart2 (natRepr (dayOf z).natAbs)) = some (dayOf z) := by
    rw [jsNumber?_padStart2_natRepr]
    refine congrArg some ?_
    omega
  simp only [e1, e2, e3, Option.bind_some, Option.bind_eq_bind]
  show some (jsMakeDay (yearOf z) (monthOf z - 1) (dayOf z)) = some z
  rw [jsMakeDay_valid (yearOf z) (monthOf z) (dayOf z) (by omega) (by omega) (by omega)]
  rw [daysFromCivil_civilFromDays z]

/-! ## Claim theorems -/

/-- C7: in daily mode, for every valid `selectedDateKey`, the
previous/next buttons replace it with the date key of exactly one calendar
day earlier/later (date arithmetic in the day-number model is
calendar-correct across month and year boundaries by construction). -/
theorem daily_nav_shifts_one_day (k : Jstr) (z : Int) (h : keyToDate k = some z) :
    navDailyNext k = dateToKey (z + 1) ∧ navDailyPrev k = dateToKey (z - 1) := by
  unfold navDailyNext navDailyPrev
  rw [h]
  constructor
  · show dateToKey ((z * msPerDay + msPerDay) / msPerDay) = dateToKey (z + 1)
    refine congrArg dateToKey ?_
    unfold msPerDay
    omega
  · show dateToKey ((z * msPerDay - msPerDay) / msPerDay) = dateToKey (z - 1)
    refine congrArg dateToKey ?_
    unfold msPerDay
    omega

/-- Witness for C7: from 2025-12-31 the next day is 2026-01-01 (a year
boundary), and from 2026-03-01 the previous day is 2026-02-28 (a month
boundary in a non-leap year). -/
theorem daily_nav_shifts_one_day_witness :
    navDailyNext ("2025-12-31".toList) = "2026-01-01".toList ∧
    navDailyPrev ("2026-03-01".toList) = "2026-02-28".toList := by
  have h1 := daily_nav_shifts_one_day ("2025-12-31".toList) 20453 (by decide)
  have h2 := daily_nav_shifts_one_day ("2026-03-01".toList) 20513 (by decide)
  exact ⟨h1.1.trans (by decide), h2.2.trans (by decide)⟩

/-- C8 counterexample: the round trip fails for the local date
March 4 of year 50 (day number −701203): its key formats with an
unpadded two-digit year, which `keyToDate` re-parses through the
ECMAScript 0–99 ↦ 1900–1999 year rule, landing on 1950-03-04
(day number −7243). -/
theorem dateKey_roundTrip_cex :
    keyToDate (dateToKey (-701203 : Int)) = some (-7243 : Int) ∧
    (-7243 : Int) ≠ (-701203 : Int) := by
  constructor
  · decide
  · decide

/-- C8 (amended): for every local date truncated to midnight whose civil
year is at least 100, `keyToDate` is the exact inverse of `dateToKey`.
(Years 0–99 format without four digits and re-parse into 1900–1999, and
negative years produce a leading dash; every date `keyToDate` itself can
produce has a year ≥ 100, so the inverse law holds on its image.) -/
theorem dateKey_roundTrip (z : Int) (hy : 100 ≤ yearOf z) :
    keyToDate (dateToKey z) = some z :=
  keyToDate_dateToKey z hy

/-- Witness for C8: the round trip at 2026-02-10 (day number 20494). -/
theorem dateKey_roundTrip_witness :
    100 ≤ yearOf 20494 ∧ keyToDate (dateToKey (20494 : Int)) = some (20494 : Int) :=
  ⟨by decide, dateKey_roundTrip 20494 (by decide)⟩

/-- C9: a non-empty explicit `calendarColors` mapping is used directly
with every slot clamped into `[0, PASTEL_COUNT - 1]`; no explicit slot,
however far out of range, escapes the palette bounds. -/
theorem explicit_colorMap_clamped (events : List CalendarEvent)
    (colors : List (Jstr × Int)) (h : colors ≠ []) :
    buildCalendarColorMap events (some colors) =
      colors.map (fun p => (p.1, clampSlot p.2)) ∧
    ∀ p ∈ buildCalendarColorMap events (some colors),
      0 ≤ p.2 ∧ p.2 ≤ PASTEL_COUNT - 1 := by
  have hlen : colors.length > 0 := List.length_pos.mpr h
  have he : buildCalendarColorMap events (some colors) =
      colors.map (fun p => (p.1, clampSlot p.2)) := by
    show (if colors.length > 0 then colors.map (fun p => (p.1, clampSlot p.2))
      else (sortIds (distinctIds events)).enum.map
        (fun p => (p.2, (p.1 : Int) % PASTEL_COUNT))) =
      colors.map (fun p => (p.1, clampSlot p.2))
    rw [if_pos hlen]
  refine ⟨he, ?_⟩
  rw [he]
  intro p hp
  obtain ⟨q, _, rfl⟩ := List.mem_map.mp hp
  unfold clampSlot PASTEL_COUNT
  constructor
  · exact le_max_left 0 _
  · simp only [max_le_iff]
    exact ⟨by omega, min_le_left _ _⟩

/-- Witness for C9: slots 25 and −3 clamp to 19 and 0. -/
theorem explicit_colorMap_clamped_witness :
    buildCalendarColorMap [] (some [("x".toList, 25), ("y".toList, -3)]) =
      [("x".toList, 19), ("y".toList, 0)] ∧
    ∀ p ∈ buildCalendarColorMap [] (some [("x".toList, 25), ("y".toList, -3)]),
      0 ≤ p.2 ∧ p.2 ≤ PASTEL_COUNT - 1 := by
  have h := explicit_colorMap_clamped [] [("x".toList, 25), ("y".toList, -3)] (by decide)
  exact ⟨h.1.trans (by decide), h.2⟩

/-- C3: the biweekly window is independent of `selectedDateKey` (two runs
with different selections agree), equals the 14 consecutive date keys from
`getStartOfWeek(today)` as two 7-day rows, and does change when the system
date changes (here: across a week boundary). -/
theorem biweekly_anchored_to_today (today : Int) (sel1 sel2 : Jstr) :
    (calendarWindows today sel1).biweekly = (calendarWindows today sel2).biweekly ∧
    (calendarWindows today sel1).biweekly =
      [(List.range 7).map (fun (i : Nat) => dateToKey (getStartOfWeek today + (i : Int))),
       (List.range 7).map
         (fun (i : Nat) => dateToKey (getStartOfWeek today + (7 + (i : Int))))] ∧
    weekRowsBiweekly 20240 ≠ weekRowsBiweekly 20247 := by
  refine ⟨rfl, ?_, by decide⟩
  show weekRowsBiweekly today = _
  unfold weekRowsBiweekly
  have h14 : List.range 14 = [0,1,2,3,4,5,6,7,8,9,10,11,12,13] := by rfl
  have h7 : List.range 7 = [0,1,2,3,4,5,6] := by rfl
  simp only [h14, h7, List.map_cons, List.map_nil, List.take, List.drop]
  norm_num

/-- Folding the NaN-absorbing minimum over a list of defined values yields
a defined lower bound attained at the seed or in the list. -/
theorem foldl_jmin_some (xs : List (Option Int)) (a : Int)
    (h : ∀ o ∈ xs, o.isSome) :
    ∃ b, xs.foldl jmin (some a) = some b ∧ b ≤ a ∧
      (∀ o ∈ xs, ∀ v, o = some v → b ≤ v) ∧ (b = a ∨ some b ∈ xs) := by
  induction xs generalizing a with
  | nil => exact ⟨a, rfl, le_refl a, by simp, Or.inl rfl⟩
  | cons o t ih =>
    obtain ⟨v, hv⟩ := Option.isSome_iff_exists.mp (h o (List.mem_cons_self o t))
    subst hv
    obtain ⟨b, hb, hba, hall, hmem⟩ := ih (min a v) (fun o ho => h o (List.mem_cons_of_mem _ ho))
    refine ⟨b, ?_, le_trans hba (min_le_left a v), ?_, ?_⟩
    · simpa [jmin] using hb
    · intro o ho w hw
      rcases List.mem_cons.mp ho with h1 | h1
      · subst h1
        cases hw
        exact le_trans hba (min_le_right a v)
      · exact hall o h1 w hw
    · rcases hmem with h1 | h1
      · rcases le_total a v with h2 | h2
        · exact Or.inl (by rw [h1]; exact min_eq_left h2)
        · refine Or.inr (List.mem_cons.mpr (Or.inl ?_))
          rw [h1, min_eq_right h2]
      · exact Or.inr (List.mem_cons_of_mem _ h1)

/-- The earliest visible start minute is defined and characterized, when
every visible timed event has a defined start minute. -/
theorem earliestStartMin_spec (days : List Jstr) (events : List CalendarEvent)
    (hp : ∀ e ∈ allTimedInView days events, (getMinutesFromMidnight e.start).isSome) :
    ∃ b, earliestStartMin days events = some b ∧
      (∀ e ∈ allTimedInView days events, ∀ v,
        getMinutesFromMidnight e.start = some v → b ≤ v) ∧
      (b = 1440 ∨ ∃ e ∈ allTimedInView days events,
        getMinutesFromMidnight e.start = some b) := by
  unfold earliestStartMin
  cases hml : (allTimedInView days events).map (fun ev => getMinutesFromMidnight ev.start) with
  | nil =>
    have hle : allTimedInView days events = [] := List.map_eq_nil.mp hml
    refine ⟨1440, by norm_num [TIME_GRID_END], ?_, Or.inl rfl⟩
    intro e he
    rw [hle] at he
    cases he
  | cons x xs =>
    have hx : ∃ e, e ∈ allTimedInView days events ∧ getMinutesFromMidnight e.start = x := by
      have : x ∈ (allTimedInView days events).map (fun ev => getMinutesFromMidnight ev.start) := by
        rw [hml]; exact List.mem_cons_self x xs
      simpa using this
    obtain ⟨e0, he0, hx0⟩ := hx
    obtain ⟨v0, hv0⟩ := Option.isSome_iff_exists.mp (hp e0 he0)
    obtain ⟨b, hb, hba, hall, hmem⟩ := foldl_jmin_some xs v0 (by
      intro o ho
      have : o ∈ (allTimedInView days events).map (fun ev => getMinutesFromMidnight ev.start) := by
        rw [hml]; exact List.mem_cons_of_mem x ho
      obtain ⟨e, he, he'⟩ := List.mem_map.mp this
      rw [← he']
      exact hp e he)
    rw [hx0] at hv0
    subst hv0
    refine ⟨b, hb, ?_, ?_⟩
    · intro e he v hv
      have : getMinutesFromMidnight e.start ∈
          (allTimedInView days events).map (fun ev => getMinutesFromMidnight ev.start) :=
        List.mem_map.mpr ⟨e, he, rfl⟩
      rw [hml] at this
      rcases List.mem_cons.mp this with h1 | h1
      · rw [hv] at h1
        cases h1
        exact hba
      · exact hall _ h1 v hv
    · rcases hmem with h1 | h1
      · subst h1
        exact Or.inr ⟨e0, he0, hx0⟩
      · have hmem2 : some b ∈ (allTimedInView days events).map
            (fun ev => getMinutesFromMidnight ev.start) := by
          rw [hml]; exact List.mem_cons_of_mem _ h1
        obtain ⟨e, he, he'⟩ := List.mem_map.mp hmem2
        exact Or.inr ⟨e, he, he'⟩

/-- C5: when every visible timed event has a well-defined start minute,
the grid start hour is 6 if all of them start at or after 6:00 (or none
are visible), 0 if at least one starts before 6:00; the grid end hour is
always 24. -/
theorem grid_collapse (days : List Jstr) (events : List CalendarEvent)
    (hp : ∀ e ∈ allTimedInView days events, (getMinutesFromMidnight e.start).isSome) :
    ((∀ e ∈ allTimedInView days events, ∀ v,
        getMinutesFromMidnight e.start = some v → 360 ≤ v) →
      computeGridStartHour days events = 6) ∧
    ((∃ e ∈ allTimedInView days events, ∃ v,
        getMinutesFromMidnight e.start = some v ∧ v < 360) →
      computeGridStartHour days events = 0) ∧
    computeGridEndHour = 24 := by
  obtain ⟨b, hb, hall, hmem⟩ := earliestStartMin_spec days events hp
  refine ⟨?_, ?_, rfl⟩
  · intro hge
    have h360 : 360 ≤ b := by
      rcases hmem with h1 | h1
      · omega
      · obtain ⟨e, he, he'⟩ := h1
        exact hge e he b he'
    unfold computeGridStartHour
    rw [hb]
    show (if b < TIME_GRID_COLLAPSE_BEFORE_HOUR * 60 then TIME_GRID_START
      else TIME_GRID_COLLAPSE_BEFORE_HOUR) = 6
    rw [if_neg (by unfold TIME_GRID_COLLAPSE_BEFORE_HOUR; omega)]
    rfl
  · rintro ⟨e, he, v, hv, hlt⟩
    have hlt' : b < 360 := lt_of_le_of_lt (hall e he v hv) hlt
    unfold computeGridStartHour
    rw [hb]
    show (if b < TIME_GRID_COLLAPSE_BEFORE_HOUR * 60 then TIME_GRID_START
      else TIME_GRID_COLLAPSE_BEFORE_HOUR) = 0
    rw [if_pos (by unfold TIME_GRID_COLLAPSE_BEFORE_HOUR; omega)]
    rfl

/-- Witness for C5: a single 9:00 event collapses the grid to 6; a single
5:00 event expands it to 0; the end hour is 24. -/
theorem grid_collapse_witness :
    computeGridStartHour ["2025-06-15".toList] [evNine] = 6 ∧
    computeGridStartHour ["2025-06-15".toList] [evFive] = 0 ∧
    computeGridEndHour = 24 := by
  have h1 := grid_collapse ["2025-06-15".toList] [evNine] (by decide)
  have h2 := grid_collapse ["2025-06-15".toList] [evFive] (by decide)
  refine ⟨h1.1 (by decide), h2.2.1 ⟨evFive, by decide, 300, by decide, by decide⟩, rfl⟩

/-- C6: for a well-formed event and grid bounds `gs < ge`, the grid
position is exactly the claim's clamp formulas: `topMin` is the start
minute clipped below at the grid start, `endMin` is the end minute capped
at the grid span and re-clamped to at least `topMin`, and the two
percentages divide by the span; both percentages are non-negative. -/
theorem timeGrid_position (ev : CalendarEvent) (gs ge sm dur : Int)
    (hgrid : gs < ge)
    (h1 : getMinutesFromMidnight ev.start = some sm)
    (h2 : getDurationMinutes ev = some dur) :
    getTimeGridPosition ev gs ge =
      some (((max 0 (sm - gs * 60) : Int) : ℚ) / ((ge * 60 - gs * 60 : Int) : ℚ) * 100,
        ((max (max 0 (sm - gs * 60)) (min (sm + dur - gs * 60) (ge * 60 - gs * 60)) -
            max 0 (sm - gs * 60) : Int) : ℚ) /
          ((ge * 60 - gs * 60 : Int) : ℚ) * 100) ∧
    0 ≤ ((max 0 (sm - gs * 60) : Int) : ℚ) / ((ge * 60 - gs * 60 : Int) : ℚ) * 100 ∧
    0 ≤ ((max (max 0 (sm - gs * 60)) (min (sm + dur - gs * 60) (ge * 60 - gs * 60)) -
            max 0 (sm - gs * 60) : Int) : ℚ) /
          ((ge * 60 - gs * 60 : Int) : ℚ) * 100 := by
  have hspan : (0 : ℚ) < ((ge * 60 - gs * 60 : Int) : ℚ) := by
    have : (0 : Int) < ge * 60 - gs * 60 := by omega
    exact_mod_cast this
  refine ⟨?_, ?_, ?_⟩
  · simp only [getTimeGridPosition, h1, h2, Option.bind_eq_bind, Option.some_bind]
    have e1 : (if sm - gs * 60 < 0 then (0 : Int) else sm - gs * 60) =
        max 0 (sm - gs * 60) := by
      omega
    have e2 : (if (if sm + dur - gs * 60 > ge * 60 - gs * 60 then ge * 60 - gs * 60
          else sm + dur - gs * 60) < (if sm - gs * 60 < 0 then (0 : Int) else sm - gs * 60)
        then (if sm - gs * 60 < 0 then (0 : Int) else sm - gs * 60)
        else (if sm + dur - gs * 60 > ge * 60 - gs * 60 then ge * 60 - gs * 60
          else sm + dur - gs * 60)) =
        max (max 0 (sm - gs * 60)) (min (sm + dur - gs * 60) (ge * 60 - gs * 60)) := by
      omega
    rw [e2, e1]
    rfl
  · apply mul_nonneg _ (by norm_num)
    apply div_nonneg _ (le_of_lt hspan)
    have : (0 : Int) ≤ max 0 (sm - gs * 60) := le_max_left 0 _
    exact_mod_cast this
  · apply mul_nonneg _ (by norm_num)
    apply div_nonneg _ (le_of_lt hspan)
    have : (0 : Int) ≤ max (max 0 (sm - gs * 60))
        (min (sm + dur - gs * 60) (ge * 60 - gs * 60)) - max 0 (sm - gs * 60) := by
      have := le_max_left (max 0 (sm - gs * 60)) (min (sm + dur - gs * 60) (ge * 60 - gs * 60))
      omega
    exact_mod_cast this

/-- Witness for C6: a 90-minute event at 23:30 on the `[6,24)` grid covers
exactly the 30 minutes before midnight — top 1050/1080, height 30/1080,
summing to exactly 100%; and a 09:00 event with an empty-string `end`
(duration 60 through the `!ev.end` guard) gets top 180/1080 and height
60/1080. -/
theorem timeGrid_position_witness :
    getTimeGridPosition evLate 6 24 =
      some ((1050 : ℚ) / 1080 * 100, (30 : ℚ) / 1080 * 100) ∧
    (1050 : ℚ) / 1080 * 100 + (30 : ℚ) / 1080 * 100 = 100 ∧
    getDurationMinutes evEmptyEnd = some 60 ∧
    getTimeGridPosition evEmptyEnd 6 24 =
      some ((180 : ℚ) / 1080 * 100, (60 : ℚ) / 1080 * 100) := by
  have h := timeGrid_position evLate 6 24 1410 90 (by norm_num) (by decide) (by decide)
  have h2 := timeGrid_position evEmptyEnd 6 24 540 60 (by norm_num) (by decide) (by decide)
  refine ⟨h.1.trans ?_, by norm_num, by decide, h2.1.trans ?_⟩
  · norm_num
  · norm_num

/-! ## Color-map machinery (C4) -/

/-- `dedupFirst` keeps exactly the members. -/
theorem mem_dedupFirst {a : Jstr} : ∀ {l : List Jstr}, a ∈ dedupFirst l ↔ a ∈ l := by
  intro l
  induction l with
  | nil => simp [dedupFirst]
  | cons b t ih =>
    simp only [dedupFirst, List.mem_cons, List.mem_filter, ih]
    constructor
    · rintro (rfl | ⟨h1, _⟩)
      · exact Or.inl rfl
      · exact Or.inr h1
    · rintro (rfl | h1)
      · exact Or.inl rfl
      · by_cases hab : a = b
        · exact Or.inl hab
        · exact Or.inr ⟨h1, by simpa using hab⟩

/-- `dedupFirst` produces no duplicates. -/
theorem nodup_dedupFirst : ∀ l : List Jstr, (dedupFirst l).Nodup := by
  intro l
  induction l with
  | nil => simp [dedupFirst]
  | cons b t ih =>
    refine List.nodup_cons.mpr ⟨?_, ih.filter _⟩
    intro hb
    have := (List.mem_filter.mp hb).2
    simp at this

/-- Equal membership after deduplication gives a permutation. -/
theorem dedupFirst_perm {l₁ l₂ : List Jstr} (h : l₁.Perm l₂) :
    (dedupFirst l₁).Perm (dedupFirst l₂) :=
  (List.perm_ext_iff_of_nodup (nodup_dedupFirst _) (nodup_dedupFirst _)).mpr
    (fun a => by rw [mem_dedupFirst, mem_dedupFirst]; exact h.mem_iff)

/-- Sorting by the (antisymmetric) id order is a canonical form: permuted
inputs sort identically. -/
theorem sortIds_eq_of_perm {l₁ l₂ : List Jstr} (h : l₁.Perm l₂) :
    sortIds l₁ = sortIds l₂ :=
  List.eq_of_perm_of_sorted
    (((List.perm_insertionSort strLe l₁).trans h).trans
      (List.perm_insertionSort strLe l₂).symm)
    (List.sorted_insertionSort strLe l₁) (List.sorted_insertionSort strLe l₂)

/-- Permuting the event batch permutes its distinct ids. -/
theorem distinctIds_perm {l₁ l₂ : List CalendarEvent} (h : l₁.Perm l₂) :
    (distinctIds l₁).Perm (distinctIds l₂) :=
  dedupFirst_perm (((h.map CalendarEvent.calendarId).filterMap id).filter _)

/-- Lookup steps through the head entry. -/
theorem mapGet_cons (k : Jstr) (v : Int) (rest : List (Jstr × Int)) (x : Jstr) :
    mapGet ((k, v) :: rest) x = if k = x then some v else mapGet rest x := by
  unfold mapGet
  rw [List.find?_cons]
  by_cases h : k = x
  · simp [h]
  · simp [h]

/-- Looking up a missing key in an entry list gives nothing. -/
theorem mapGet_enum_none (f : Nat → Int) :
    ∀ (l : List Jstr) (n : Nat) (x : Jstr), x ∉ l →
      mapGet ((List.enumFrom n l).map (fun p => (p.2, f p.1))) x = none := by
  intro l
  induction l with
  | nil => intro n x _; rfl
  | cons a t ih =>
    intro n x hx
    rw [List.enumFrom_cons]
    simp only [List.map_cons]
    rw [mapGet_cons, if_neg (fun h => hx (by rw [← h]; exact List.mem_cons_self a t))]
    exact ih (n + 1) x (fun h => hx (List.mem_cons_of_mem a h))

/-- In a sorted duplicate-free entry list, a key's slot is its
strictly-smaller-element count. -/
theorem mapGet_enum_rank (f : Nat → Int) :
    ∀ (l : List Jstr) (n : Nat), l.Sorted strLe → l.Nodup →
      ∀ x ∈ l, mapGet ((List.enumFrom n l).map (fun p => (p.2, f p.1))) x =
        some (f (n + (l.filter (fun b => decide (strLt b x))).length)) := by
  intro l
  induction l with
  | nil => intro n _ _ x hx; cases hx
  | cons a t ih =>
    intro n hs hn x hx
    obtain ⟨hsa, hst⟩ := List.sorted_cons.mp hs
    obtain ⟨hna, hnt⟩ := List.nodup_cons.mp hn
    rw [List.enumFrom_cons]
    simp only [List.map_cons]
    rw [mapGet_cons]
    by_cases hax : a = x
    · subst hax
      rw [if_pos rfl]
      have hfil : (a :: t).filter (fun b => decide (strLt b a)) = [] := by
        rw [List.filter_eq_nil]
        intro b hb
        simp only [decide_eq_true_eq]
        rintro ⟨hba, hne⟩
        rcases List.mem_cons.mp hb with rfl | hbt
        · exact hne rfl
        · exact hne (antisymm hba (hsa b hbt))
      rw [hfil]
      simp
    · rw [if_neg hax]
      have hxt : x ∈ t := by
        rcases List.mem_cons.mp hx with rfl | hxt
        · exact absurd rfl hax
        · exact hxt
      have hlt : strLt a x := ⟨hsa x hxt, hax⟩
      rw [ih (n + 1) hst hnt x hxt]
      have hfil : (a :: t).filter (fun b => decide (strLt b x)) =
          a :: t.filter (fun b => decide (strLt b x)) := by
        rw [List.filter_cons_of_pos]
        simpa using hlt
      rw [hfil]
      refine congrArg some (congrArg f ?_)
      simp only [List.length_cons]
      omega

/-- C4 counterexample: for an event whose `calendarId` is the empty
string, the engine's map is empty (JS `filter(Boolean)` drops the empty
string), while the claim's described mapping assigns it slot 0. -/
theorem color_assignment_cex :
    buildCalendarColorMap [evIdEmpty] none = [] ∧
    specColorMap [evIdEmpty] = [([], 0)] ∧
    buildCalendarColorMap [evIdEmpty] none ≠ specColorMap [evIdEmpty] := by
  refine ⟨by decide, by decide, by decide⟩

/-- C4 (amended): with no (or an empty) explicit mapping, the engine maps
each distinct calendar id that is present *and non-empty* to its
lexicographic rank mod the palette size; the result is invariant under
permutations of the event list, and the empty id is never a key. -/
theorem color_assignment_det (events : List CalendarEvent)
    (cc : Option (List (Jstr × Int))) (hcc : cc = none ∨ cc = some []) :
    (∀ events2, events.Perm events2 →
      buildCalendarColorMap events cc = buildCalendarColorMap events2 cc) ∧
    (∀ id0, id0 ∈ distinctIds events →
      mapGet (buildCalendarColorMap events cc) id0 =
        some ((((distinctIds events).filter (fun b => decide (strLt b id0))).length : Int)
          % PASTEL_COUNT)) ∧
    mapGet (buildCalendarColorMap events cc) [] = none := by
  have hred : ∀ evs : List CalendarEvent, buildCalendarColorMap evs cc =
      (sortIds (distinctIds evs)).enum.map (fun p => (p.2, (p.1 : Int) % PASTEL_COUNT)) := by
    intro evs
    rcases hcc with rfl | rfl
    · rfl
    · rfl
  refine ⟨?_, ?_, ?_⟩
  · intro events2 hp
    rw [hred events, hred events2, sortIds_eq_of_perm (distinctIds_perm hp)]
  · intro id0 hid
    rw [hred events]
    have hsp := List.perm_insertionSort strLe (distinctIds events)
    have hrank := mapGet_enum_rank (fun k => (k : Int) % PASTEL_COUNT)
      (sortIds (distinctIds events)) 0
      (List.sorted_insertionSort strLe (distinctIds events))
      (hsp.nodup_iff.mpr (nodup_dedupFirst _))
      id0 (hsp.mem_iff.mpr hid)
    rw [show (sortIds (distinctIds events)).enum =
      List.enumFrom 0 (sortIds (distinctIds events)) from rfl]
    rw [hrank]
    refine congrArg some ?_
    have hlen : ((sortIds (distinctIds events)).filter
        (fun b => decide (strLt b id0))).length =
        ((distinctIds events).filter (fun b => decide (strLt b id0))).length :=
      (hsp.filter _).length_eq
    rw [hlen]
    simp
  · rw [hred events]
    rw [show (sortIds (distinctIds events)).enum =
      List.enumFrom 0 (sortIds (distinctIds events)) from rfl]
    refine mapGet_enum_none (fun k => (k : Int) % PASTEL_COUNT)
      (sortIds (distinctIds events)) 0 [] ?_
    intro hmem
    have := mem_dedupFirst.mp ((List.perm_insertionSort strLe _).mem_iff.mp hmem)
    have := (List.mem_filter.mp this).2
    simp at this

/-- Witness for C4: the spec's example ids `["b@x","a@x","a@x"]` give
`a@x ↦ 0` and `b@x ↦ 1`, in any input order. -/
theorem color_assignment_det_witness :
    buildCalendarColorMap [evIdB, evIdA, evIdA] none =
      buildCalendarColorMap [evIdA, evIdA, evIdB] none ∧
    mapGet (buildCalendarColorMap [evIdB, evIdA, evIdA] none) ("a@x".toList) = some 0 ∧
    mapGet (buildCalendarColorMap [evIdB, evIdA, evIdA] none) ("b@x".toList) = some 1 := by
  have h := color_assignment_det [evIdB, evIdA, evIdA] none (Or.inl rfl)
  refine ⟨h.1 _ (by decide), ?_, ?_⟩
  · exact (h.2.1 _ (by decide)).trans (by decide)
  · exact (h.2.1 _ (by decide)).trans (by decide)

/-! ## C2: all-day multi-day enumeration -/

/-- `keyToDate` is exactly `splitNums` followed by `new Date(y, m-1, d)`:
both destructure the same `split('-').map(Number)` triple. -/
theorem keyToDate_eq_splitNums (s : Jstr) :
    keyToDate s = (splitNums s).map (fun t => jsMakeDay t.1 (t.2.1 - 1) t.2.2) := by
  rcases hsp : jsSplit '-' s with _ | ⟨a, _ | ⟨b, _ | ⟨c, r⟩⟩⟩ <;>
      simp only [keyToDate, splitNums, hsp] <;> try rfl
  cases jsNumber? a <;> cases jsNumber? b <;> cases jsNumber? c <;> rfl

/-- `canonKey` unpacked: the key is a bare date and formatting its parse
gives the key back. -/
theorem canonKey_spec (s : Jstr) (z : Int) (hc : canonKey s = true)
    (hz : keyToDate s = some z) :
    isDateOnlyStr s = true ∧ dateToKey z = s := by
  simp only [canonKey, Bool.and_eq_true] at hc
  refine ⟨hc.1, ?_⟩
  have h2 := hc.2
  rw [hz] at h2
  exact of_decide_eq_true h2

/-- C2 (counterexample): the all-day event `0050-06-01 → 0050-06-03` has
both endpoints as valid bare dates two calendar days apart, yet the code
returns the keys `1950-06-01`, `1950-06-02` — `new Date(y, m, d)` maps the
year argument 50 to 1950 — not the date-keys from its start. -/
theorem multiday_enumeration_cex :
    evYear50.allDay = true ∧
    isDateOnlyStr evYear50.start = true ∧
    evYear50.endOpt = some ("0050-06-03".toList) ∧
    isDateOnlyStr ("0050-06-03".toList) = true ∧
    getEventDateKeys evYear50 = ["1950-06-01".toList, "1950-06-02".toList] ∧
    getEventDateKeys evYear50 ≠ ["0050-06-01".toList, "0050-06-02".toList] := by
  refine ⟨rfl, by decide, rfl, by decide, by decide, by decide⟩

/-- C2 (amended): for an all-day event whose `start` and `end` are
*canonical* bare date keys (parse/format round-trip, ruling out the
0–99-year `new Date` quirk and denormalizing day numbers) parsing to days
`zs` and `ze`, `getEventDateKeys` is the half-open run of date-keys from
`zs` (inclusive) to `ze` (exclusive) when `zs < ze`, and
`[getEventDateKey ev]` when the run is empty; the primary key is
`dateToKey zs = start`; and every non-all-day event, every event with no
`end`, and every event whose `start`/`end` are not both bare dates gets
exactly `[getEventDateKey ev]`. -/
theorem multiday_enumeration (ev : CalendarEvent) (es : Jstr) (zs ze : Int)
    (ha : ev.allDay = true) (he : ev.endOpt = some es)
    (hcs : canonKey ev.start = true) (hce : canonKey es = true)
    (hzs : keyToDate ev.start = some zs) (hze : keyToDate es = some ze) :
    (getEventDateKeys ev =
      if zs < ze then (List.range (ze - zs).toNat).map
        (fun (i : Nat) => dateToKey (zs + (i : Int)))
      else [getEventDateKey ev]) ∧
    getEventDateKey ev = dateToKey zs ∧
    (∀ ev' : CalendarEvent, ev'.allDay = false →
      getEventDateKeys ev' = [getEventDateKey ev']) ∧
    (∀ ev' : CalendarEvent, ev'.endOpt = none →
      getEventDateKeys ev' = [getEventDateKey ev']) ∧
    (∀ ev' : CalendarEvent, ∀ es' : Jstr, ev'.endOpt = some es' →
      ¬(isDateOnlyStr ev'.start = true ∧ isDateOnlyStr es' = true) →
      getEventDateKeys ev' = [getEventDateKey ev']) := by
  obtain ⟨hbs, hfs⟩ := canonKey_spec ev.start zs hcs hzs
  obtain ⟨hbe, hfe⟩ := canonKey_spec es ze hce hze
  rw [keyToDate_eq_splitNums] at hzs hze
  obtain ⟨⟨sy, sm, sd⟩, hsp, hmk⟩ := Option.map_eq_some'.mp hzs
  obtain ⟨⟨ey, em, ed⟩, hep, hmke⟩ := Option.map_eq_some'.mp hze
  have hne : es ≠ [] := by
    intro h
    rw [h] at hbe
    exact absurd hbe (by decide)
  refine ⟨?_, ?_, ?_, ?_, ?_⟩
  · simp only [getEventDateKeys, ha, he, not_true, ite_false, if_neg hne,
      hbs, hbe, and_self, hsp, hep]
    rw [hmk, hmke]
    by_cases h : zs < ze
    · have hl : 0 < ((List.range (ze - zs).toNat).map
          (fun (i : Nat) => dateToKey (zs + (i : Int)))).length := by
        rw [List.length_map, List.length_range]
        omega
      rw [if_pos h, if_pos hl]
    · have hl : ¬0 < ((List.range (ze - zs).toNat).map
          (fun (i : Nat) => dateToKey (zs + (i : Int)))).length := by
        rw [List.length_map, List.length_range]
        omega
      rw [if_neg h, if_neg hl]
  · simp only [getEventDateKey, hbs, ite_true]
    exact hfs.symm
  · intro ev' h
    simp [getEventDateKeys, h]
  · intro ev' h
    simp only [getEventDateKeys, h]
    split <;> rfl
  · intro ev' es' h hnb
    simp only [getEventDateKeys, h]
    by_cases hall : ev'.allDay
    · simp only [hall, not_true, ite_false]
      by_cases hnil : es' = []
      · rw [if_pos hnil]
      · rw [if_neg hnil, if_pos hnb]
    · simp [hall]

/-- Witness for C2: the spec's own examples — June 1 to June 4 occupies
exactly the three keys June 1–3, and the degenerate event (end = start)
falls back to its single start key. -/
theorem multiday_enumeration_witness :
    getEventDateKeys evJune =
      ["2025-06-01".toList, "2025-06-02".toList, "2025-06-03".toList] ∧
    getEventDateKeys evJuneDeg = ["2025-06-01".toList] ∧
    getEventDateKey evJune = "2025-06-01".toList := by
  have h := multiday_enumeration evJune ("2025-06-04".toList) 20240 20243
    rfl rfl (by decide) (by decide) (by decide) (by decide)
  have h2 := multiday_enumeration evJuneDeg ("2025-06-01".toList) 20240 20240
    rfl rfl (by decide) (by decide) (by decide) (by decide)
  refine ⟨?_, ?_, ?_⟩
  · rw [h.1]
    decide
  · rw [h2.1]
    decide
  · rw [h.2.1]
    decide

/-! ## C10: the head of `getEventDateKeys` and the continuation flag -/

/-- A string matching the bare-date pattern has exactly ten characters,
the first of which is a digit. -/
theorem isDateOnlyStr_shape (s : Jstr) (h : isDateOnlyStr s = true) :
    s.length = 10 ∧ ∀ c0, s.head? = some c0 → isDigit c0 = true := by
  rcases s with _ | ⟨a, s⟩
  · exact Bool.noConfusion h
  rcases s with _ | ⟨b, s⟩
  · exact Bool.noConfusion h
  rcases s with _ | ⟨c, s⟩
  · exact Bool.noConfusion h
  rcases s with _ | ⟨d, s⟩
  · exact Bool.noConfusion h
  rcases s with _ | ⟨x1, s⟩
  · exact Bool.noConfusion h
  rcases s with _ | ⟨e, s⟩
  · exact Bool.noConfusion h
  rcases s with _ | ⟨f, s⟩
  · exact Bool.noConfusion h
  rcases s with _ | ⟨x2, s⟩
  · exact Bool.noConfusion h
  rcases s with _ | ⟨g, s⟩
  · exact Bool.noConfusion h
  rcases s with _ | ⟨k, s⟩
  · exact Bool.noConfusion h
  rcases s with _ | ⟨l, s⟩
  · simp only [isDateOnlyStr, Bool.and_eq_true] at h
    refine ⟨rfl, ?_⟩
    intro c0 hc0
    injection hc0 with hc0
    rw [← hc0]
    exact h.1.1.1.1.1.1.1.1.1
  · exact Bool.noConfusion h

/-- Decimal representations of numbers below 100 have at most two
digits. -/
theorem natRepr_length_le2 (n : Nat) (h : n < 100) : (natRepr n).length ≤ 2 := by
  rw [natRepr_eq]
  split_ifs with h1
  · simp
  · rw [natRepr_eq, if_pos (show n / 10 < 10 by omega)]
    simp

/-- Decimal representations of numbers below 1000 have at most three
digits. -/
theorem natRepr_length_le3 (n : Nat) (h : n < 1000) : (natRepr n).length ≤ 3 := by
  rw [natRepr_eq]
  split_ifs with h1
  · simp
  · have h2 := natRepr_length_le2 (n / 10) (by omega)
    simp only [List.length_append, List.length_singleton]
    omega

/-- Decimal representations have at least one digit. -/
theorem natRepr_length_pos (n : Nat) : 1 ≤ (natRepr n).length := by
  cases hn : natRepr n with
  | nil => exact absurd hn (natRepr_ne_nil n)
  | cons a t => simp

/-- Padding a one- or two-character string to two characters gives exactly
two characters. -/
theorem padStart2_length (s : Jstr) (h1 : 1 ≤ s.length) (h2 : s.length ≤ 2) :
    (padStart2 s).length = 2 := by
  unfold padStart2
  split_ifs with h
  · simp only [List.length_cons]
    omega
  · omega

/-- A day number whose formatted key matches the bare-date pattern has a
four-digit year: the month and day fields occupy six of the ten
characters, a negative year would start with a dash, and a year below
1000 would leave the key short. -/
theorem canon_year (z : Int) (h : isDateOnlyStr (dateToKey z) = true) :
    1000 ≤ yearOf z := by
  obtain ⟨hlen, hhead⟩ := isDateOnlyStr_shape (dateToKey z) h
  have hr := civilFromDays_ranges z
  by_cases hy : yearOf z < 0
  · exfalso
    have hrep : intRepr (yearOf z) = '-' :: natRepr (yearOf z).natAbs := by
      unfold intRepr
      rw [if_pos hy]
    have hh : (dateToKey z).head? = some '-' := by
      unfold dateToKey
      rw [hrep]
      rfl
    exact absurd (hhead '-' hh) (by decide)
  · push_neg at hy
    have hrep : intRepr (yearOf z) = natRepr (yearOf z).natAbs := by
      unfold intRepr
      rw [if_neg (by omega)]
    have hm' : intRepr (monthOf z) = natRepr (monthOf z).natAbs := by
      unfold intRepr
      rw [if_neg (by omega)]
    have hd' : intRepr (dayOf z) = natRepr (dayOf z).natAbs := by
      unfold intRepr
      rw [if_neg (by omega)]
    have hmlen : (padStart2 (intRepr (monthOf z))).length = 2 := by
      rw [hm']
      exact padStart2_length _ (natRepr_length_pos _) (natRepr_length_le2 _ (by omega))
    have hdlen : (padStart2 (intRepr (dayOf z))).length = 2 := by
      rw [hd']
      exact padStart2_length _ (natRepr_length_pos _) (natRepr_length_le2 _ (by omega))
    unfold dateToKey at hlen
    rw [hrep] at hlen
    simp only [List.length_append, List.length_cons, hmlen, hdlen] at hlen
    by_contra hlt
    push_neg at hlt
    have h3 := natRepr_length_le3 (yearOf z).natAbs (by omega)
    omega

/-- Shape of `getEventDateKeys`: every event gets either exactly its
single primary key, or (an all-day event with a usable pair of bare dates
spanning at least one day) the non-empty run of formatted keys from its
parsed start. -/
theorem getEventDateKeys_cases (ev : CalendarEvent) :
    getEventDateKeys ev = [getEventDateKey ev] ∨
    ∃ zs n, keyToDate ev.start = some zs ∧ isDateOnlyStr ev.start = true ∧ 0 < n ∧
      getEventDateKeys ev =
        (List.range n).map (fun (i : Nat) => dateToKey (zs + (i : Int))) := by
  by_cases ha : ev.allDay = true
  case neg =>
    left
    simp [getEventDateKeys, ha]
  cases he : ev.endOpt with
  | none =>
    left
    simp [getEventDateKeys, he, ha]
  | some es =>
    by_cases hnil : es = []
    · left
      simp [getEventDateKeys, he, ha, hnil]
    by_cases hbb : isDateOnlyStr ev.start = true ∧ isDateOnlyStr es = true
    case neg =>
      left
      simp only [getEventDateKeys, he, ha, not_true, ite_false]
      rw [if_neg hnil, if_pos hbb]
    cases hsp : splitNums ev.start with
    | none =>
      left
      simp only [getEventDateKeys, he, ha, not_true, ite_false, hbb.1, hbb.2, and_self,
        if_neg hnil, hsp]
    | some t =>
      obtain ⟨sy, sm, sd⟩ := t
      cases hep : splitNums es with
      | none =>
        left
        simp only [getEventDateKeys, he, ha, not_true, ite_false, hbb.1, hbb.2, and_self,
          if_neg hnil, hsp, hep]
      | some t2 =>
        obtain ⟨ey, em, ed⟩ := t2
        have hred : getEventDateKeys ev =
            (if 0 < ((List.range (jsMakeDay ey (em - 1) ed - jsMakeDay sy (sm - 1) sd).toNat).map
                (fun (i : Nat) => dateToKey (jsMakeDay sy (sm - 1) sd + (i : Int)))).length
             then (List.range (jsMakeDay ey (em - 1) ed - jsMakeDay sy (sm - 1) sd).toNat).map
                (fun (i : Nat) => dateToKey (jsMakeDay sy (sm - 1) sd + (i : Int)))
             else [getEventDateKey ev]) := by
          simp only [getEventDateKeys, he, ha, not_true, ite_false, hbb.1, hbb.2, and_self,
            if_neg hnil, hsp, hep]
        by_cases hlen : 0 < (jsMakeDay ey (em - 1) ed - jsMakeDay sy (sm - 1) sd).toNat
        · right
          refine ⟨jsMakeDay sy (sm - 1) sd,
            (jsMakeDay ey (em - 1) ed - jsMakeDay sy (sm - 1) sd).toNat, ?_, hbb.1, hlen, ?_⟩
          · rw [keyToDate_eq_splitNums, hsp]
            rfl
          · rw [hred, if_pos]
            rw [List.length_map, List.length_range]
            exact hlen
        · left
          rw [hred, if_neg]
          rw [List.length_map, List.length_range]
          exact hlen

/-- C10 (counterexample): for the all-day event `2025-06-31 → 2025-07-03`
the primary key is the bare start string passed through unchanged, but the
enumeration parses it through `new Date`, which normalizes June 31 to
July 1 — so the first returned key differs from the primary key and the
continuation flag is true on the event's first occupied day. -/
theorem dateKeys_head_cex :
    getEventDateKey evBadStart = "2025-06-31".toList ∧
    getEventDateKeys evBadStart = ["2025-07-01".toList, "2025-07-02".toList] ∧
    (getEventDateKeys evBadStart).head? ≠ some (getEventDateKey evBadStart) ∧
    isContinuation evBadStart ("2025-07-01".toList) = true := by
  refine ⟨by decide, by decide, by decide, by decide⟩

/-- C10 (amended): `getEventDateKeys` is non-empty for every event,
malformed ones included; and for every event whose start key is canonical
(parse/format round-trip) the first returned key is exactly
`getEventDateKey`, the continuation flag is false on the primary key and
true on every later occupied day. -/
theorem dateKeys_head (ev : CalendarEvent) (hc : canonKey ev.start = true) :
    (∀ ev' : CalendarEvent, getEventDateKeys ev' ≠ []) ∧
    (getEventDateKeys ev).head? = some (getEventDateKey ev) ∧
    isContinuation ev (getEventDateKey ev) = false ∧
    ∀ k ∈ (getEventDateKeys ev).tail, isContinuation ev k = true := by
  have hnil : ∀ ev' : CalendarEvent, getEventDateKeys ev' ≠ [] := by
    intro ev'
    rcases getEventDateKeys_cases ev' with h | ⟨zs, n, _, _, hn, h⟩
    · rw [h]
      exact List.cons_ne_nil _ _
    · rw [h]
      intro hcon
      have hl := congrArg List.length hcon
      simp only [List.length_map, List.length_range, List.length_nil] at hl
      omega
  have hbs : isDateOnlyStr ev.start = true := by
    simp only [canonKey, Bool.and_eq_true] at hc
    exact hc.1
  have hkey : getEventDateKey ev = ev.start := by
    simp only [getEventDateKey, hbs, ite_true]
  have hself : isContinuation ev (getEventDateKey ev) = false := by
    simp [isContinuation]
  rcases getEventDateKeys_cases ev with h | ⟨zs, n, hzs, _, hn, h⟩
  · refine ⟨hnil, ?_, hself, ?_⟩
    · rw [h]
      rfl
    · rw [h]
      intro k hk
      simp at hk
  · obtain ⟨_, hfs⟩ := canonKey_spec ev.start zs hc hzs
    have hy : 1000 ≤ yearOf zs := canon_year zs (by rw [hfs]; exact hbs)
    obtain ⟨m, rfl⟩ : ∃ m, n = m + 1 := ⟨n - 1, by omega⟩
    refine ⟨hnil, ?_, hself, ?_⟩
    · rw [h, List.range_succ_eq_map, List.map_cons, List.head?_cons]
      refine congrArg some ?_
      rw [hkey, ← hfs]
      show dateToKey (zs + ((0 : Nat) : Int)) = dateToKey zs
      norm_num
    · rw [h, List.range_succ_eq_map, List.map_cons, List.tail_cons, List.map_map]
      intro k hk
      obtain ⟨i, hi, rfl⟩ := List.mem_map.mp hk
      simp only [isContinuation, Function.comp_apply, hkey, ne_eq, decide_eq_true_eq]
      rw [← hfs]
      intro heq
      have hy2 : 100 ≤ yearOf (zs + ((Nat.succ i : Nat) : Int)) :=
        yearOf_ge_mono zs _ (by omega) (by omega)
      have h1 := keyToDate_dateToKey (zs + ((Nat.succ i : Nat) : Int)) hy2
      have h2 : keyToDate (dateToKey zs) = some zs := by
        rw [hfs]
        exact hzs
      rw [heq, h2] at h1
      have h3 := Option.some.inj h1
      omega

/-- Witness for C10: the canonical all-day event June 1 → June 4 has its
primary key first, continuation false there and true on June 2; the
malformed event still yields a non-empty key list. -/
theorem dateKeys_head_witness :
    (getEventDateKeys evJune).head? = some (getEventDateKey evJune) ∧
    isContinuation evJune (getEventDateKey evJune) = false ∧
    isContinuation evJune ("2025-06-02".toList) = true ∧
    getEventDateKeys evBadStart ≠ [] := by
  have h := dateKeys_head evJune (by decide)
  exact ⟨h.2.1, h.2.2.1, h.2.2.2 _ (by decide), h.1 evBadStart⟩

/-! ## C1: the monthly window -/

/-- C1 (counterexample): for today = 2026-02-10 (day 20494), February 2026
fits in four Sunday-aligned rows (the spec's covering set, three rows after
past-row filtering), but the code always builds six rows: the returned
grid has five rows and includes the row 2026-03-08 … 2026-03-14, which
lies entirely in the following month. -/
theorem monthly_rows_cex :
    (specMonthlyRows 20494).length = 3 ∧
    (weekRowsMonthly 20494).length = 5 ∧
    weekRowsMonthly 20494 ≠ specMonthlyRows 20494 ∧
    ((List.range 7).map (fun (i : Nat) => dateToKey (20520 + (i : Int)))) ∈
      weekRowsMonthly 20494 ∧
    yearOf 20494 = 2026 ∧ monthOf 20494 = 2 ∧
    yearOf 20520 = 2026 ∧ monthOf 20520 = 3 ∧ yearOf 20526 = 2026 ∧ monthOf 20526 = 3 := by
  exact ⟨by decide, by decide, by decide, by decide, by decide, by decide, by decide,
    by decide, by decide, by decide⟩

/-- C1 (amended): for every today (with a four-digit-safe padded window),
the monthly view's rows are exactly the *fixed six* 7-day calendar-grid
rows starting at `startOfWeek(first-of-month)` — each row starting Sunday,
the first on or before the first of the month — with every row whose last
day is strictly before today's start of day removed; rows past the
month's end are *not* trimmed, so up to two rows lying entirely in the
following month appear whenever fewer than six rows cover the month. -/
theorem monthly_rows (today : Int) (h100 : 100 ≤ yearOf (monthlyStartPad today)) :
    weekRowsMonthly today =
      ((List.range 6).filter
          (fun (r : Nat) => decide (monthlyStartPad today + 7 * (r : Int) + 6 ≥ today))).map
        (fun (r : Nat) => (List.range 7).map
          (fun (c0 : Nat) => dateToKey (monthlyStartPad today + 7 * (r : Int) + (c0 : Int)))) ∧
    jsGetDay (monthlyStartPad today) = 0 ∧
    monthlyStartPad today ≤ jsMakeDay (yearOf today) (monthOf today - 1) 1 := by
  refine ⟨?_, ?_, ?_⟩
  · unfold weekRowsMonthly
    rw [List.filter_map]
    refine congrArg (List.map _) (List.filter_congr ?_)
    intro r hr
    simp only [Function.comp_apply]
    have hget : ((List.range 7).map
        (fun (c0 : Nat) => dateToKey (monthlyStartPad today + 7 * (r : Int) + (c0 : Int)))).get? 6 =
        some (dateToKey (monthlyStartPad today + 7 * (r : Int) + 6)) := by
      rw [List.get?_map, (rfl : (List.range 7).get? 6 = some 6)]
      rfl
    have hy_r : 100 ≤ yearOf (monthlyStartPad today + 7 * (r : Int) + 6) :=
      yearOf_ge_mono (monthlyStartPad today) _ h100 (by omega)
    have hkd := keyToDate_dateToKey (monthlyStartPad today + 7 * (r : Int) + 6) hy_r
    simp only [monthlyRowKeep, hget, hkd]
  · unfold monthlyStartPad getStartOfWeek jsGetDay
    omega
  · unfold monthlyStartPad getStartOfWeek jsGetDay
    omega

/-- Witness for C1: at today = 2026-02-10 the hypothesis holds, the grid
equals the filtered fixed six rows, and the past first week-row
(2026-02-01 … 2026-02-07, ending before today) is absent. -/
theorem monthly_rows_witness :
    100 ≤ yearOf (monthlyStartPad 20494) ∧
    weekRowsMonthly 20494 =
      ((List.range 6).filter
          (fun (r : Nat) => decide (monthlyStartPad 20494 + 7 * (r : Int) + 6 ≥ 20494))).map
        (fun (r : Nat) => (List.range 7).map
          (fun (c0 : Nat) => dateToKey (monthlyStartPad 20494 + 7 * (r : Int) + (c0 : Int)))) ∧
    ((List.range 7).map (fun (i : Nat) => dateToKey (20485 + (i : Int)))) ∉
      weekRowsMonthly 20494 := by
  have h := monthly_rows 20494 (by decide)
  refine ⟨by decide, h.1, ?_⟩
  rw [h.1]
  decide

end Canopy
